import Mathlib

/-!
Verification development for the irohscii collaborative ASCII editor.

The Rust sources are shallowly embedded: the automerge-backed document store
(src/document.rs), the shape data model (src/shapes.rs, src/canvas.rs) and the
presence manager (src/presence.rs).  Automerge map objects are modelled as
association lists from string keys to scalar values; machine integers are
modelled as Int/Nat with explicit wrapping where the Rust casts wrap.
-/

namespace Irohscii

/-- Wrap an integer into the i32 range, the effect of the Rust cast
`n as i32` applied to an i64 (src/document.rs get_i32). -/
def wrap32 (n : Int) : Int := (n + 2 ^ 31) % 2 ^ 32 - 2 ^ 31

/-- The Rust cast `c as i64` applied to a u64 (src/document.rs
write_shape_kind stores connection ids this way). -/
def toI64 (n : Nat) : Int := ((n : Int) + 2 ^ 63) % 2 ^ 64 - 2 ^ 63

/-- The Rust cast `n as u64` applied to an i64 (src/document.rs get_opt_u64). -/
def toU64 (i : Int) : Nat := (i % 2 ^ 64).toNat

theorem wrap32_idem (n : Int) : wrap32 (wrap32 n) = wrap32 n := by
  unfold wrap32; omega

theorem wrap32_eq_self (n : Int) (h1 : -2 ^ 31 ≤ n) (h2 : n < 2 ^ 31) :
    wrap32 n = n := by
  unfold wrap32; omega

theorem toU64_toI64 (n : Nat) (h : n < 2 ^ 64) : toU64 (toI64 n) = n := by
  unfold toU64 toI64; omega

theorem toU64_lt (i : Int) : toU64 i < 2 ^ 64 := by
  unfold toU64; omega

/-- Two-dimensional integer position (src/canvas.rs struct Position).
The Rust i32 fields are modelled as unbounded Int; storage writes them as
i64 and reads truncate with wrap32. -/
structure Position where
  x : Int
  y : Int
deriving DecidableEq, Repr

/-- Line rendering style (src/canvas.rs enum LineStyle, default Straight). -/
inductive LineStyle
| Straight
| OrthogonalHV
| OrthogonalVH
deriving DecidableEq, Repr

/-- Shape color (src/shapes.rs enum ShapeColor, default White). -/
inductive ShapeColor
| White
| Black
| Red
| Green
| Yellow
| Blue
| Magenta
| Cyan
| Gray
| DarkGray
| LightRed
| LightGreen
| LightYellow
| LightBlue
| LightMagenta
| LightCyan
deriving DecidableEq, Repr

/-- The shape data model (src/shapes.rs enum ShapeKind).  Rust String fields
are modelled as List Char; connection ids (u64) as Nat. -/
inductive ShapeKind
| Line (start end_ : Position) (style : LineStyle)
    (start_connection end_connection : Option Nat)
    (label : Option (List Char)) (color : ShapeColor)
| Arrow (start end_ : Position) (style : LineStyle)
    (start_connection end_connection : Option Nat)
    (label : Option (List Char)) (color : ShapeColor)
| Rectangle (start end_ : Position) (label : Option (List Char)) (color : ShapeColor)
| DoubleBox (start end_ : Position) (label : Option (List Char)) (color : ShapeColor)
| Diamond (center : Position) (half_width half_height : Int)
    (label : Option (List Char)) (color : ShapeColor)
| Ellipse (center : Position) (radius_x radius_y : Int)
    (label : Option (List Char)) (color : ShapeColor)
| Freehand (points : List Position) (char : Char)
    (label : Option (List Char)) (color : ShapeColor)
| Text (pos : Position) (content : List Char) (color : ShapeColor)
| Triangle (p1 p2 p3 : Position) (label : Option (List Char)) (color : ShapeColor)
| Parallelogram (start end_ : Position) (label : Option (List Char)) (color : ShapeColor)
| Hexagon (center : Position) (radius_x radius_y : Int)
    (label : Option (List Char)) (color : ShapeColor)
| Trapezoid (start end_ : Position) (label : Option (List Char)) (color : ShapeColor)
| RoundedRect (start end_ : Position) (label : Option (List Char)) (color : ShapeColor)
| Cylinder (start end_ : Position) (label : Option (List Char)) (color : ShapeColor)
| Cloud (start end_ : Position) (label : Option (List Char)) (color : ShapeColor)
| Star (center : Position) (outer_radius inner_radius : Int)
    (label : Option (List Char)) (color : ShapeColor)
deriving DecidableEq, Repr

/-- Automerge scalar values, restricted to the payloads this codebase stores.
A UUID written through id.to_string() is a string scalar whose text is the
UUID; we model such scalars by the identifier they denote (constructor idStr),
since the only operation applied to them is Uuid::parse_str, and parse_str
fails on the non-UUID strings the code stores elsewhere. -/
inductive AmScalar
| int (n : Int)
| str (s : List Char)
| idStr (n : Nat)
deriving DecidableEq, Repr

/-- Entries of an automerge map object: either a scalar, or (only for the
Freehand "points" key) a list object of nested point map objects holding
scalars. -/
inductive AmEntry
| scalar (v : AmScalar)
| pointList (pts : List (List (String × AmScalar)))
deriving DecidableEq, Repr

/-- An automerge map object: keys to entries (unordered in automerge; put
overwrites an existing key). -/
abbrev AmMap := List (String × AmEntry)

/-- Automerge transaction put: overwrite an existing key or add a new one. -/
def amPut : AmMap → String → AmEntry → AmMap
| [], k, v => [(k, v)]
| (k', v') :: rest, k, v =>
    if k' = k then (k, v) :: rest else (k', v') :: amPut rest k v

/-- Automerge doc.get on a map object. -/
def amGet : AmMap → String → Option AmEntry
| [], _ => none
| (k', v') :: rest, k => if k' = k then some v' else amGet rest k

/-- Automerge transaction delete on a map object; deleting a missing key is a
no-op that succeeds (automerge-rs local_map_op returns Ok early when no op
exists at the key, matching JS delete semantics). -/
def amDel : AmMap → String → AmMap
| [], _ => []
| (k', v') :: rest, k => if k' = k then rest else (k', v') :: amDel rest k

/-- The Display rendering of an automerge scalar, as consumed by the
pervasive s.to_string() calls: string scalars print wrapped in double
quotes, integers print their decimal text. -/
def scalar_to_string : AmScalar → List Char
| .int n => (toString n).data
| .str s => '"' :: (s ++ ['"'])
| .idStr n => (toString n).data

/-- ScalarValue::to_i64: only integer scalars convert. -/
def scalar_to_i64 : AmScalar → Option Int
| .int n => some n
| _ => none

/-- Rust str::trim_matches applied with the pattern char double-quote: all
leading and all trailing quote characters are removed. -/
def trim_matches_quote (l : List Char) : List Char :=
  (((l.dropWhile fun c => c = '"').reverse.dropWhile fun c => c = '"')).reverse

/-- Result type of the fallible store operations (anyhow::Result). -/
abbrev Res (α : Type) := Except String α

/-- src/document.rs line_style_to_str. -/
def line_style_to_str : LineStyle → List Char
| .Straight => "Straight".data
| .OrthogonalHV => "OrthogonalHV".data
| .OrthogonalVH => "OrthogonalVH".data

/-- src/document.rs str_to_line_style; unknown text falls back to the default. -/
def str_to_line_style (s : List Char) : LineStyle :=
  if s = "Straight".data then .Straight
  else if s = "OrthogonalHV".data then .OrthogonalHV
  else if s = "OrthogonalVH".data then .OrthogonalVH
  else .Straight

/-- src/document.rs shape_color_to_str. -/
def shape_color_to_str : ShapeColor → List Char
| .White => "White".data
| .Black => "Black".data
| .Red => "Red".data
| .Green => "Green".data
| .Yellow => "Yellow".data
| .Blue => "Blue".data
| .Magenta => "Magenta".data
| .Cyan => "Cyan".data
| .Gray => "Gray".data
| .DarkGray => "DarkGray".data
| .LightRed => "LightRed".data
| .LightGreen => "LightGreen".data
| .LightYellow => "LightYellow".data
| .LightBlue => "LightBlue".data
| .LightMagenta => "LightMagenta".data
| .LightCyan => "LightCyan".data

/-- src/document.rs str_to_shape_color; unknown text falls back to the default. -/
def str_to_shape_color (s : List Char) : ShapeColor :=
  if s = "White".data then .White
  else if s = "Black".data then .Black
  else if s = "Red".data then .Red
  else if s = "Green".data then .Green
  else if s = "Yellow".data then .Yellow
  else if s = "Blue".data then .Blue
  else if s = "Magenta".data then .Magenta
  else if s = "Cyan".data then .Cyan
  else if s = "Gray".data then .Gray
  else if s = "DarkGray".data then .DarkGray
  else if s = "LightRed".data then .LightRed
  else if s = "LightGreen".data then .LightGreen
  else if s = "LightYellow".data then .LightYellow
  else if s = "LightBlue".data then .LightBlue
  else if s = "LightMagenta".data then .LightMagenta
  else if s = "LightCyan".data then .LightCyan
  else .White

/-- src/document.rs write_shape_kind: encode a ShapeKind into a fresh
automerge map object by a sequence of puts, in source order.  Coordinates
are written as i64 (stored unchanged here since the Int already equals the
sign-extended i32), connection ids via the u64-to-i64 cast, optional fields
only when present. -/
def write_shape_kind (k : ShapeKind) : AmMap :=
  match k with
  | .Line st en sty sc ec lab col =>
      let m := amPut [] "kind" (.scalar (.str "Line".data))
      let m := amPut m "start_x" (.scalar (.int st.x))
      let m := amPut m "start_y" (.scalar (.int st.y))
      let m := amPut m "end_x" (.scalar (.int en.x))
      let m := amPut m "end_y" (.scalar (.int en.y))
      let m := amPut m "style" (.scalar (.str (line_style_to_str sty)))
      let m := amPut m "color" (.scalar (.str (shape_color_to_str col)))
      let m := match sc with
        | some c => amPut m "start_conn" (.scalar (.int (toI64 c)))
        | none => m
      let m := match ec with
        | some c => amPut m "end_conn" (.scalar (.int (toI64 c)))
        | none => m
      match lab with
      | some l => amPut m "label" (.scalar (.str l))
      | none => m
  | .Arrow st en sty sc ec lab col =>
      let m := amPut [] "kind" (.scalar (.str "Arrow".data))
      let m := amPut m "start_x" (.scalar (.int st.x))
      let m := amPut m "start_y" (.scalar (.int st.y))
      let m := amPut m "end_x" (.scalar (.int en.x))
      let m := amPut m "end_y" (.scalar (.int en.y))
      let m := amPut m "style" (.scalar (.str (line_style_to_str sty)))
      let m := amPut m "color" (.scalar (.str (shape_color_to_str col)))
      let m := match sc with
        | some c => amPut m "start_conn" (.scalar (.int (toI64 c)))
        | none => m
      let m := match ec with
        | some c => amPut m "end_conn" (.scalar (.int (toI64 c)))
        | none => m
      match lab with
      | some l => amPut m "label" (.scalar (.str l))
      | none => m
  | .Rectangle st en lab col =>
      let m := amPut [] "kind" (.scalar (.str "Rectangle".data))
      let m := amPut m "start_x" (.scalar (.int st.x))
      let m := amPut m "start_y" (.scalar (.int st.y))
      let m := amPut m "end_x" (.scalar (.int en.x))
      let m := amPut m "end_y" (.scalar (.int en.y))
      let m := amPut m "color" (.scalar (.str (shape_color_to_str col)))
      match lab with
      | some l => amPut m "label" (.scalar (.str l))
      | none => m
  | .DoubleBox st en lab col =>
      let m := amPut [] "kind" (.scalar (.str "DoubleBox".data))
      let m := amPut m "start_x" (.scalar (.int st.x))
      let m := amPut m "start_y" (.scalar (.int st.y))
      let m := amPut m "end_x" (.scalar (.int en.x))
      let m := amPut m "end_y" (.scalar (.int en.y))
      let m := amPut m "color" (.scalar (.str (shape_color_to_str col)))
      match lab with
      | some l => amPut m "label" (.scalar (.str l))
      | none => m
  | .Diamond c hw hh lab col =>
      let m := amPut [] "kind" (.scalar (.str "Diamond".data))
      let m := amPut m "center_x" (.scalar (.int c.x))
      let m := amPut m "center_y" (.scalar (.int c.y))
      let m := amPut m "half_width" (.scalar (.int hw))
      let m := amPut m "half_height" (.scalar (.int hh))
      let m := amPut m "color" (.scalar (.str (shape_color_to_str col)))
      match lab with
      | some l => amPut m "label" (.scalar (.str l))
      | none => m
  | .Ellipse c rx ry lab col =>
      let m := amPut [] "kind" (.scalar (.str "Ellipse".data))
      let m := amPut m "center_x" (.scalar (.int c.x))
      let m := amPut m "center_y" (.scalar (.int c.y))
      let m := amPut m "radius_x" (.scalar (.int rx))
      let m := amPut m "radius_y" (.scalar (.int ry))
      let m := amPut m "color" (.scalar (.str (shape_color_to_str col)))
      match lab with
      | some l => amPut m "label" (.scalar (.str l))
      | none => m
  | .Freehand pts ch lab col =>
      let m := amPut [] "kind" (.scalar (.str "Freehand".data))
      let m := amPut m "char" (.scalar (.str [ch]))
      let m := amPut m "color" (.scalar (.str (shape_color_to_str col)))
      let m := match lab with
        | some l => amPut m "label" (.scalar (.str l))
        | none => m
      amPut m "points"
        (.pointList (pts.map fun p => [("x", .int p.x), ("y", .int p.y)]))
  | .Text p content col =>
      let m := amPut [] "kind" (.scalar (.str "Text".data))
      let m := amPut m "pos_x" (.scalar (.int p.x))
      let m := amPut m "pos_y" (.scalar (.int p.y))
      let m := amPut m "content" (.scalar (.str content))
      amPut m "color" (.scalar (.str (shape_color_to_str col)))
  | .Triangle p1 p2 p3 lab col =>
      let m := amPut [] "kind" (.scalar (.str "Triangle".data))
      let m := amPut m "p1_x" (.scalar (.int p1.x))
      let m := amPut m "p1_y" (.scalar (.int p1.y))
      let m := amPut m "p2_x" (.scalar (.int p2.x))
      let m := amPut m "p2_y" (.scalar (.int p2.y))
      let m := amPut m "p3_x" (.scalar (.int p3.x))
      let m := amPut m "p3_y" (.scalar (.int p3.y))
      let m := amPut m "color" (.scalar (.str (shape_color_to_str col)))
      match lab with
      | some l => amPut m "label" (.scalar (.str l))
      | none => m
  | .Parallelogram st en lab col =>
      let m := amPut [] "kind" (.scalar (.str "Parallelogram".data))
      let m := amPut m "start_x" (.scalar (.int st.x))
      let m := amPut m "start_y" (.scalar (.int st.y))
      let m := amPut m "end_x" (.scalar (.int en.x))
      let m := amPut m "end_y" (.scalar (.int en.y))
      let m := amPut m "color" (.scalar (.str (shape_color_to_str col)))
      match lab with
      | some l => amPut m "label" (.scalar (.str l))
      | none => m
  | .Hexagon c rx ry lab col =>
      let m := amPut [] "kind" (.scalar (.str "Hexagon".data))
      let m := amPut m "center_x" (.scalar (.int c.x))
      let m := amPut m "center_y" (.scalar (.int c.y))
      let m := amPut m "radius_x" (.scalar (.int rx))
      let m := amPut m "radius_y" (.scalar (.int ry))
      let m := amPut m "color" (.scalar (.str (shape_color_to_str col)))
      match lab with
      | some l => amPut m "label" (.scalar (.str l))
      | none => m
  | .Trapezoid st en lab col =>
      let m := amPut [] "kind" (.scalar (.str "Trapezoid".data))
      let m := amPut m "start_x" (.scalar (.int st.x))
      let m := amPut m "start_y" (.scalar (.int st.y))
      let m := amPut m "end_x" (.scalar (.int en.x))
      let m := amPut m "end_y" (.scalar (.int en.y))
      let m := amPut m "color" (.scalar (.str (shape_color_to_str col)))
      match lab with
      | some l => amPut m "label" (.scalar (.str l))
      | none => m
  | .RoundedRect st en lab col =>
      let m := amPut [] "kind" (.scalar (.str "RoundedRect".data))
      let m := amPut m "start_x" (.scalar (.int st.x))
      let m := amPut m "start_y" (.scalar (.int st.y))
      let m := amPut m "end_x" (.scalar (.int en.x))
      let m := amPut m "end_y" (.scalar (.int en.y))
      let m := amPut m "color" (.scalar (.str (shape_color_to_str col)))
      match lab with
      | some l => amPut m "label" (.scalar (.str l))
      | none => m
  | .Cylinder st en lab col =>
      let m := amPut [] "kind" (.scalar (.str "Cylinder".data))
      let m := amPut m "start_x" (.scalar (.int st.x))
      let m := amPut m "start_y" (.scalar (.int st.y))
      let m := amPut m "end_x" (.scalar (.int en.x))
      let m := amPut m "end_y" (.scalar (.int en.y))
      let m := amPut m "color" (.scalar (.str (shape_color_to_str col)))
      match lab with
      | some l => amPut m "label" (.scalar (.str l))
      | none => m
  | .Cloud st en lab col =>
      let m := amPut [] "kind" (.scalar (.str "Cloud".data))
      let m := amPut m "start_x" (.scalar (.int st.x))
      let m := amPut m "start_y" (.scalar (.int st.y))
      let m := amPut m "end_x" (.scalar (.int en.x))
      let m := amPut m "end_y" (.scalar (.int en.y))
      let m := amPut m "color" (.scalar (.str (shape_color_to_str col)))
      match lab with
      | some l => amPut m "label" (.scalar (.str l))
      | none => m
  | .Star c orad irad lab col =>
      let m := amPut [] "kind" (.scalar (.str "Star".data))
      let m := amPut m "center_x" (.scalar (.int c.x))
      let m := amPut m "center_y" (.scalar (.int c.y))
      let m := amPut m "outer_radius" (.scalar (.int orad))
      let m := amPut m "inner_radius" (.scalar (.int irad))
      let m := amPut m "color" (.scalar (.str (shape_color_to_str col)))
      match lab with
      | some l => amPut m "label" (.scalar (.str l))
      | none => m

/-- src/document.rs get_i32: read an i64 scalar and truncate it as i32. -/
def get_i32 (m : AmMap) (key : String) : Res Int :=
  match amGet m key with
  | some (.scalar s) =>
      match scalar_to_i64 s with
      | some n => .ok (wrap32 n)
      | none => .error ("Expected i64 for key " ++ key)
  | _ => .error ("Missing key " ++ key)

/-- src/document.rs get_string: Display the scalar, trim quote chars. -/
def get_string (m : AmMap) (key : String) : Res (List Char) :=
  match amGet m key with
  | some (.scalar s) => .ok (trim_matches_quote (scalar_to_string s))
  | _ => .error ("Missing key " ++ key)

/-- src/document.rs get_opt_string: like get_string but a missing key or a
non-scalar entry yields none instead of an error. -/
def get_opt_string (m : AmMap) (key : String) : Res (Option (List Char)) :=
  match amGet m key with
  | some (.scalar s) => .ok (some (trim_matches_quote (scalar_to_string s)))
  | _ => .ok none

/-- src/document.rs get_opt_u64: an integer scalar is cast i64-to-u64; a
non-integer scalar or a missing key yields none. -/
def get_opt_u64 (m : AmMap) (key : String) : Res (Option Nat) :=
  match amGet m key with
  | some (.scalar s) =>
      match scalar_to_i64 s with
      | some n => .ok (some (toU64 n))
      | none => .ok none
  | _ => .ok none

/-- src/document.rs get_line_style: missing or malformed falls back to the
default style. -/
def get_line_style (m : AmMap) : Res LineStyle :=
  match amGet m "style" with
  | some (.scalar s) =>
      .ok (str_to_line_style (trim_matches_quote (scalar_to_string s)))
  | _ => .ok .Straight

/-- src/document.rs get_shape_color: missing or malformed falls back to the
default color. -/
def get_shape_color (m : AmMap) : Res ShapeColor :=
  match amGet m "color" with
  | some (.scalar s) =>
      .ok (str_to_shape_color (trim_matches_quote (scalar_to_string s)))
  | _ => .ok .White

/-- get_i32 applied to one nested Freehand point map object. -/
def point_get_i32 (pm : List (String × AmScalar)) (key : String) : Res Int :=
  match pm.lookup key with
  | some s =>
      match scalar_to_i64 s with
      | some n => .ok (wrap32 n)
      | none => .error ("Expected i64 for key " ++ key)
  | none => .error ("Missing key " ++ key)

/-- The Freehand points loop of src/document.rs read_shape_kind: each point
map contributes its x and y read via get_i32 semantics. -/
def read_freehand_points : List (List (String × AmScalar)) → Res (List Position)
| [] => .ok []
| pm :: rest => do
    let x ← point_get_i32 pm "x"
    let y ← point_get_i32 pm "y"
    let tail ← read_freehand_points rest
    .ok (Position.mk x y :: tail)

/-!
read_shape_kind (src/document.rs): the Rust function is one match over the
stored "kind" tag; each match arm is transcribed below as its own decoder
definition (read_<variant>_fields), and read_shape_kind performs the dispatch.
-/

/-- The "points" extraction of the Freehand arm: a missing key yields an
empty list, a scalar at the key has object length 0 and also yields an
empty list. -/
def read_points_entry (m : AmMap) : Res (List Position) :=
  match amGet m "points" with
  | some (.pointList pl) => read_freehand_points pl
  | some (.scalar _) => read_freehand_points []
  | none => .ok []

/-- The Line arm of read_shape_kind. -/
def read_line_fields (m : AmMap) : Res (Option ShapeKind) := do
  let sx ← get_i32 m "start_x"
  let sy ← get_i32 m "start_y"
  let ex ← get_i32 m "end_x"
  let ey ← get_i32 m "end_y"
  let sty ← get_line_style m
  let sc ← get_opt_u64 m "start_conn"
  let ec ← get_opt_u64 m "end_conn"
  let lab ← get_opt_string m "label"
  let col ← get_shape_color m
  .ok (some (.Line ⟨sx, sy⟩ ⟨ex, ey⟩ sty sc ec lab col))

/-- The Arrow arm of read_shape_kind. -/
def read_arrow_fields (m : AmMap) : Res (Option ShapeKind) := do
  let sx ← get_i32 m "start_x"
  let sy ← get_i32 m "start_y"
  let ex ← get_i32 m "end_x"
  let ey ← get_i32 m "end_y"
  let sty ← get_line_style m
  let sc ← get_opt_u64 m "start_conn"
  let ec ← get_opt_u64 m "end_conn"
  let lab ← get_opt_string m "label"
  let col ← get_shape_color m
  .ok (some (.Arrow ⟨sx, sy⟩ ⟨ex, ey⟩ sty sc ec lab col))

/-- The Rectangle arm of read_shape_kind. -/
def read_rectangle_fields (m : AmMap) : Res (Option ShapeKind) := do
  let sx ← get_i32 m "start_x"
  let sy ← get_i32 m "start_y"
  let ex ← get_i32 m "end_x"
  let ey ← get_i32 m "end_y"
  let lab ← get_opt_string m "label"
  let col ← get_shape_color m
  .ok (some (.Rectangle ⟨sx, sy⟩ ⟨ex, ey⟩ lab col))

/-- The DoubleBox arm of read_shape_kind. -/
def read_doublebox_fields (m : AmMap) : Res (Option ShapeKind) := do
  let sx ← get_i32 m "start_x"
  let sy ← get_i32 m "start_y"
  let ex ← get_i32 m "end_x"
  let ey ← get_i32 m "end_y"
  let lab ← get_opt_string m "label"
  let col ← get_shape_color m
  .ok (some (.DoubleBox ⟨sx, sy⟩ ⟨ex, ey⟩ lab col))

/-- The Diamond arm of read_shape_kind. -/
def read_diamond_fields (m : AmMap) : Res (Option ShapeKind) := do
  let cx ← get_i32 m "center_x"
  let cy ← get_i32 m "center_y"
  let hw ← get_i32 m "half_width"
  let hh ← get_i32 m "half_height"
  let lab ← get_opt_string m "label"
  let col ← get_shape_color m
  .ok (some (.Diamond ⟨cx, cy⟩ hw hh lab col))

/-- The Ellipse arm of read_shape_kind. -/
def read_ellipse_fields (m : AmMap) : Res (Option ShapeKind) := do
  let cx ← get_i32 m "center_x"
  let cy ← get_i32 m "center_y"
  let rx ← get_i32 m "radius_x"
  let ry ← get_i32 m "radius_y"
  let lab ← get_opt_string m "label"
  let col ← get_shape_color m
  .ok (some (.Ellipse ⟨cx, cy⟩ rx ry lab col))

/-- The Freehand arm of read_shape_kind: the char is the first char of the
trimmed stored string, falling back to an asterisk. -/
def read_freehand_fields (m : AmMap) : Res (Option ShapeKind) := do
  let char_str ← get_string m "char"
  let ch := char_str.headD '*'
  let pts ← read_points_entry m
  let lab ← get_opt_string m "label"
  let col ← get_shape_color m
  .ok (some (.Freehand pts ch lab col))

/-- The Text arm of read_shape_kind. -/
def read_text_fields (m : AmMap) : Res (Option ShapeKind) := do
  let px ← get_i32 m "pos_x"
  let py ← get_i32 m "pos_y"
  let content ← get_string m "content"
  let col ← get_shape_color m
  .ok (some (.Text ⟨px, py⟩ content col))

/-- The Triangle arm of read_shape_kind. -/
def read_triangle_fields (m : AmMap) : Res (Option ShapeKind) := do
  let x1 ← get_i32 m "p1_x"
  let y1 ← get_i32 m "p1_y"
  let x2 ← get_i32 m "p2_x"
  let y2 ← get_i32 m "p2_y"
  let x3 ← get_i32 m "p3_x"
  let y3 ← get_i32 m "p3_y"
  let lab ← get_opt_string m "label"
  let col ← get_shape_color m
  .ok (some (.Triangle ⟨x1, y1⟩ ⟨x2, y2⟩ ⟨x3, y3⟩ lab col))

/-- The Parallelogram arm of read_shape_kind. -/
def read_parallelogram_fields (m : AmMap) : Res (Option ShapeKind) := do
  let sx ← get_i32 m "start_x"
  let sy ← get_i32 m "start_y"
  let ex ← get_i32 m "end_x"
  let ey ← get_i32 m "end_y"
  let lab ← get_opt_string m "label"
  let col ← get_shape_color m
  .ok (some (.Parallelogram ⟨sx, sy⟩ ⟨ex, ey⟩ lab col))

/-- The Hexagon arm of read_shape_kind. -/
def read_hexagon_fields (m : AmMap) : Res (Option ShapeKind) := do
  let cx ← get_i32 m "center_x"
  let cy ← get_i32 m "center_y"
  let rx ← get_i32 m "radius_x"
  let ry ← get_i32 m "radius_y"
  let lab ← get_opt_string m "label"
  let col ← get_shape_color m
  .ok (some (.Hexagon ⟨cx, cy⟩ rx ry lab col))

/-- The Trapezoid arm of read_shape_kind. -/
def read_trapezoid_fields (m : AmMap) : Res (Option ShapeKind) := do
  let sx ← get_i32 m "start_x"
  let sy ← get_i32 m "start_y"
  let ex ← get_i32 m "end_x"
  let ey ← get_i32 m "end_y"
  let lab ← get_opt_string m "label"
  let col ← get_shape_color m
  .ok (some (.Trapezoid ⟨sx, sy⟩ ⟨ex, ey⟩ lab col))

/-- The RoundedRect arm of read_shape_kind. -/
def read_roundedrect_fields (m : AmMap) : Res (Option ShapeKind) := do
  let sx ← get_i32 m "start_x"
  let sy ← get_i32 m "start_y"
  let ex ← get_i32 m "end_x"
  let ey ← get_i32 m "end_y"
  let lab ← get_opt_string m "label"
  let col ← get_shape_color m
  .ok (some (.RoundedRect ⟨sx, sy⟩ ⟨ex, ey⟩ lab col))

/-- The Cylinder arm of read_shape_kind. -/
def read_cylinder_fields (m : AmMap) : Res (Option ShapeKind) := do
  let sx ← get_i32 m "start_x"
  let sy ← get_i32 m "start_y"
  let ex ← get_i32 m "end_x"
  let ey ← get_i32 m "end_y"
  let lab ← get_opt_string m "label"
  let col ← get_shape_color m
  .ok (some (.Cylinder ⟨sx, sy⟩ ⟨ex, ey⟩ lab col))

/-- The Cloud arm of read_shape_kind. -/
def read_cloud_fields (m : AmMap) : Res (Option ShapeKind) := do
  let sx ← get_i32 m "start_x"
  let sy ← get_i32 m "start_y"
  let ex ← get_i32 m "end_x"
  let ey ← get_i32 m "end_y"
  let lab ← get_opt_string m "label"
  let col ← get_shape_color m
  .ok (some (.Cloud ⟨sx, sy⟩ ⟨ex, ey⟩ lab col))

/-- The Star arm of read_shape_kind. -/
def read_star_fields (m : AmMap) : Res (Option ShapeKind) := do
  let cx ← get_i32 m "center_x"
  let cy ← get_i32 m "center_y"
  let orad ← get_i32 m "outer_radius"
  let irad ← get_i32 m "inner_radius"
  let lab ← get_opt_string m "label"
  let col ← get_shape_color m
  .ok (some (.Star ⟨cx, cy⟩ orad irad lab col))

/-- The kind_str computation of read_shape_kind: Display the stored tag
scalar and trim quote characters. -/
def kind_tag (s : AmScalar) : List Char := trim_matches_quote (scalar_to_string s)

/-- The dispatch of src/document.rs read_shape_kind over the entry stored at
the "kind" key: an unknown tag or a non-scalar tag yields Ok(None). -/
def read_shape_tag (m : AmMap) : Option AmEntry → Res (Option ShapeKind)
| some (.scalar s) =>
      if kind_tag s = "Line".data then read_line_fields m
      else if kind_tag s = "Arrow".data then read_arrow_fields m
      else if kind_tag s = "Rectangle".data then read_rectangle_fields m
      else if kind_tag s = "DoubleBox".data then read_doublebox_fields m
      else if kind_tag s = "Diamond".data then read_diamond_fields m
      else if kind_tag s = "Ellipse".data then read_ellipse_fields m
      else if kind_tag s = "Freehand".data then read_freehand_fields m
      else if kind_tag s = "Text".data then read_text_fields m
      else if kind_tag s = "Triangle".data then read_triangle_fields m
      else if kind_tag s = "Parallelogram".data then read_parallelogram_fields m
      else if kind_tag s = "Hexagon".data then read_hexagon_fields m
      else if kind_tag s = "Trapezoid".data then read_trapezoid_fields m
      else if kind_tag s = "RoundedRect".data then read_roundedrect_fields m
      else if kind_tag s = "Cylinder".data then read_cylinder_fields m
      else if kind_tag s = "Cloud".data then read_cloud_fields m
      else if kind_tag s = "Star".data then read_star_fields m
      else .ok none
| _ => .ok none

/-- src/document.rs read_shape_kind: dispatch on the stored "kind" tag and
decode each field via the arm decoders above. -/
def read_shape_kind (m : AmMap) : Res (Option ShapeKind) :=
  read_shape_tag m (amGet m "kind")

/-!
Canonicalization: what one write-then-read pass does to each stored field.
String scalars are Displayed wrapped in double quotes and read back through
trim_matches_quote, so a stored string loses any leading/trailing quote
characters; i32 fields survive exactly; connection ids survive the
u64/i64 casts exactly.
-/

/-- The net effect of storing a string and reading it back. -/
def canon_str (s : List Char) : List Char :=
  trim_matches_quote (scalar_to_string (.str s))

/-- The net effect of storing a Freehand char and reading it back. -/
def canon_char (c : Char) : Char := (canon_str [c]).headD '*'

/-- The net effect of storing a position and reading it back. -/
def canon_pos (p : Position) : Position := ⟨wrap32 p.x, wrap32 p.y⟩

/-- The net effect of storing a connection id and reading it back. -/
def canon_conn (c : Nat) : Nat := toU64 (toI64 c)

/-- The net effect of one write_shape_kind / read_shape_kind pass on a
whole shape. -/
def canonShape : ShapeKind → ShapeKind
| .Line st en sty sc ec lab col =>
    .Line (canon_pos st) (canon_pos en) sty (sc.map canon_conn) (ec.map canon_conn)
      (lab.map canon_str) col
| .Arrow st en sty sc ec lab col =>
    .Arrow (canon_pos st) (canon_pos en) sty (sc.map canon_conn) (ec.map canon_conn)
      (lab.map canon_str) col
| .Rectangle st en lab col =>
    .Rectangle (canon_pos st) (canon_pos en) (lab.map canon_str) col
| .DoubleBox st en lab col =>
    .DoubleBox (canon_pos st) (canon_pos en) (lab.map canon_str) col
| .Diamond c hw hh lab col =>
    .Diamond (canon_pos c) (wrap32 hw) (wrap32 hh) (lab.map canon_str) col
| .Ellipse c rx ry lab col =>
    .Ellipse (canon_pos c) (wrap32 rx) (wrap32 ry) (lab.map canon_str) col
| .Freehand pts ch lab col =>
    .Freehand (pts.map canon_pos) (canon_char ch) (lab.map canon_str) col
| .Text p content col =>
    .Text (canon_pos p) (canon_str content) col
| .Triangle p1 p2 p3 lab col =>
    .Triangle (canon_pos p1) (canon_pos p2) (canon_pos p3) (lab.map canon_str) col
| .Parallelogram st en lab col =>
    .Parallelogram (canon_pos st) (canon_pos en) (lab.map canon_str) col
| .Hexagon c rx ry lab col =>
    .Hexagon (canon_pos c) (wrap32 rx) (wrap32 ry) (lab.map canon_str) col
| .Trapezoid st en lab col =>
    .Trapezoid (canon_pos st) (canon_pos en) (lab.map canon_str) col
| .RoundedRect st en lab col =>
    .RoundedRect (canon_pos st) (canon_pos en) (lab.map canon_str) col
| .Cylinder st en lab col =>
    .Cylinder (canon_pos st) (canon_pos en) (lab.map canon_str) col
| .Cloud st en lab col =>
    .Cloud (canon_pos st) (canon_pos en) (lab.map canon_str) col
| .Star c orad irad lab col =>
    .Star (canon_pos c) (wrap32 orad) (wrap32 irad) (lab.map canon_str) col

theorem head_dropWhile_quote_ne (l : List Char) (c : Char)
    (h : (l.dropWhile fun x => x = '"').head? = some c) : c ≠ '"' := by
  induction l with
  | nil => simp [List.dropWhile] at h
  | cons a t ih =>
      rw [List.dropWhile_cons] at h
      by_cases ha : a = '"'
      · rw [if_pos (by simp [ha])] at h
        exact ih h
      · rw [if_neg (by simp [ha])] at h
        simp only [List.head?_cons, Option.some.injEq] at h
        exact h ▸ ha

theorem getLast?_dropWhile_of_ne_nil {α : Type} (p : α → Bool) (l : List α)
    (h : l.dropWhile p ≠ []) : (l.dropWhile p).getLast? = l.getLast? := by
  induction l with
  | nil => simp [List.dropWhile] at h
  | cons a t ih =>
      rw [List.dropWhile_cons] at h ⊢
      by_cases hp : p a
      · rw [if_pos hp] at h ⊢
        rw [ih h]
        have ht : t ≠ [] := by
          intro he
          rw [he] at h
          simp [List.dropWhile] at h
        cases t with
        | nil => exact absurd rfl ht
        | cons b u => rw [List.getLast?_cons_cons]
      · rw [if_neg hp]

theorem trim_head_ne (l : List Char) (c : Char)
    (h : (trim_matches_quote l).head? = some c) : c ≠ '"' := by
  unfold trim_matches_quote at h
  rw [List.head?_reverse] at h
  have hne : ((l.dropWhile fun x => x = '"').reverse.dropWhile fun x => x = '"') ≠ [] := by
    intro he
    rw [he] at h
    simp at h
  rw [getLast?_dropWhile_of_ne_nil _ _ hne, List.getLast?_reverse] at h
  exact head_dropWhile_quote_ne _ _ h

theorem trim_last_ne (l : List Char) (c : Char)
    (h : (trim_matches_quote l).getLast? = some c) : c ≠ '"' := by
  unfold trim_matches_quote at h
  rw [List.getLast?_reverse] at h
  exact head_dropWhile_quote_ne _ _ h

theorem dropWhile_eq_self_of_head {α : Type} (p : α → Bool) (l : List α)
    (h : ∀ c, l.head? = some c → p c = false) : l.dropWhile p = l := by
  cases l with
  | nil => rfl
  | cons a t => rw [List.dropWhile_cons, if_neg (by simp [h a rfl])]

theorem canon_str_eq_self (s : List Char)
    (hh : ∀ c, s.head? = some c → c ≠ '"')
    (hl : ∀ c, s.getLast? = some c → c ≠ '"') : canon_str s = s := by
  unfold canon_str scalar_to_string trim_matches_quote
  rw [List.dropWhile_cons, if_pos (by simp)]
  cases s with
  | nil => simp [List.dropWhile]
  | cons a t =>
      rw [dropWhile_eq_self_of_head _ ((a :: t) ++ ['"'])
        (by
          intro c hc
          simp only [List.cons_append, List.head?_cons, Option.some.injEq] at hc
          simp [hc ▸ hh a rfl])]
      rw [List.reverse_append]
      simp only [List.reverse_singleton, List.singleton_append]
      rw [List.dropWhile_cons, if_pos (by simp)]
      rw [dropWhile_eq_self_of_head _ (a :: t).reverse
        (by
          intro c hc
          rw [List.head?_reverse] at hc
          simp [hl c hc])]
      exact List.reverse_reverse _

theorem canon_str_idem (s : List Char) : canon_str (canon_str s) = canon_str s :=
  canon_str_eq_self _ (fun c h => trim_head_ne _ c h) (fun c h => trim_last_ne _ c h)

theorem canon_char_eq_self (c : Char) (h : c ≠ '"') : canon_char c = c := by
  unfold canon_char
  rw [canon_str_eq_self [c]
    (by intro d hd; simp only [List.head?_cons, Option.some.injEq] at hd; exact hd ▸ h)
    (by
      intro d hd
      simp only [List.getLast?_singleton, Option.some.injEq] at hd
      exact hd ▸ h)]
  rfl

theorem canon_char_ne_quote (c : Char) : canon_char c ≠ '"' := by
  unfold canon_char
  cases hcs : canon_str [c] with
  | nil => decide
  | cons d t =>
      simp only [List.headD_cons]
      have hd : (canon_str [c]).head? = some d := by rw [hcs]; rfl
      unfold canon_str at hd
      exact trim_head_ne _ _ hd

theorem color_roundtrip (col : ShapeColor) :
    str_to_shape_color (trim_matches_quote (scalar_to_string (.str (shape_color_to_str col)))) = col := by
  cases col <;> decide

theorem style_roundtrip (sty : LineStyle) :
    str_to_line_style (trim_matches_quote (scalar_to_string (.str (line_style_to_str sty)))) = sty := by
  cases sty <;> decide

theorem get_shape_color_write (m : AmMap) (col : ShapeColor)
    (h : amGet m "color" = some (.scalar (.str (shape_color_to_str col)))) :
    get_shape_color m = .ok col := by
  unfold get_shape_color
  rw [h]
  exact congrArg Except.ok (color_roundtrip col)

theorem get_line_style_write (m : AmMap) (sty : LineStyle)
    (h : amGet m "style" = some (.scalar (.str (line_style_to_str sty)))) :
    get_line_style m = .ok sty := by
  unfold get_line_style
  rw [h]
  exact congrArg Except.ok (style_roundtrip sty)

theorem read_shape_kind_line (m : AmMap)
    (h : amGet m "kind" = some (.scalar (.str "Line".data))) :
    read_shape_kind m = read_line_fields m := by
  unfold read_shape_kind
  rw [h]
  rfl

theorem read_shape_kind_arrow (m : AmMap)
    (h : amGet m "kind" = some (.scalar (.str "Arrow".data))) :
    read_shape_kind m = read_arrow_fields m := by
  unfold read_shape_kind
  rw [h]
  rfl

theorem read_shape_kind_rectangle (m : AmMap)
    (h : amGet m "kind" = some (.scalar (.str "Rectangle".data))) :
    read_shape_kind m = read_rectangle_fields m := by
  unfold read_shape_kind
  rw [h]
  rfl

theorem read_shape_kind_doublebox (m : AmMap)
    (h : amGet m "kind" = some (.scalar (.str "DoubleBox".data))) :
    read_shape_kind m = read_doublebox_fields m := by
  unfold read_shape_kind
  rw [h]
  rfl

theorem read_shape_kind_diamond (m : AmMap)
    (h : amGet m "kind" = some (.scalar (.str "Diamond".data))) :
    read_shape_kind m = read_diamond_fields m := by
  unfold read_shape_kind
  rw [h]
  rfl

theorem read_shape_kind_ellipse (m : AmMap)
    (h : amGet m "kind" = some (.scalar (.str "Ellipse".data))) :
    read_shape_kind m = read_ellipse_fields m := by
  unfold read_shape_kind
  rw [h]
  rfl

theorem read_shape_kind_freehand (m : AmMap)
    (h : amGet m "kind" = some (.scalar (.str "Freehand".data))) :
    read_shape_kind m = read_freehand_fields m := by
  unfold read_shape_kind
  rw [h]
  rfl

theorem read_shape_kind_text (m : AmMap)
    (h : amGet m "kind" = some (.scalar (.str "Text".data))) :
    read_shape_kind m = read_text_fields m := by
  unfold read_shape_kind
  rw [h]
  rfl

theorem read_shape_kind_triangle (m : AmMap)
    (h : amGet m "kind" = some (.scalar (.str "Triangle".data))) :
    read_shape_kind m = read_triangle_fields m := by
  unfold read_shape_kind
  rw [h]
  rfl

theorem read_shape_kind_parallelogram (m : AmMap)
    (h : amGet m "kind" = some (.scalar (.str "Parallelogram".data))) :
    read_shape_kind m = read_parallelogram_fields m := by
  unfold read_shape_kind
  rw [h]
  rfl

theorem read_shape_kind_hexagon (m : AmMap)
    (h : amGet m "kind" = some (.scalar (.str "Hexagon".data))) :
    read_shape_kind m = read_hexagon_fields m := by
  unfold read_shape_kind
  rw [h]
  rfl

theorem read_shape_kind_trapezoid (m : AmMap)
    (h : amGet m "kind" = some (.scalar (.str "Trapezoid".data))) :
    read_shape_kind m = read_trapezoid_fields m := by
  unfold read_shape_kind
  rw [h]
  rfl

theorem read_shape_kind_roundedrect (m : AmMap)
    (h : amGet m "kind" = some (.scalar (.str "RoundedRect".data))) :
    read_shape_kind m = read_roundedrect_fields m := by
  unfold read_shape_kind
  rw [h]
  rfl

theorem read_shape_kind_cylinder (m : AmMap)
    (h : amGet m "kind" = some (.scalar (.str "Cylinder".data))) :
    read_shape_kind m = read_cylinder_fields m := by
  unfold read_shape_kind
  rw [h]
  rfl

theorem read_shape_kind_cloud (m : AmMap)
    (h : amGet m "kind" = some (.scalar (.str "Cloud".data))) :
    read_shape_kind m = read_cloud_fields m := by
  unfold read_shape_kind
  rw [h]
  rfl

theorem read_shape_kind_star (m : AmMap)
    (h : amGet m "kind" = some (.scalar (.str "Star".data))) :
    read_shape_kind m = read_star_fields m := by
  unfold read_shape_kind
  rw [h]
  rfl

theorem read_freehand_points_map (pts : List Position) :
    read_freehand_points (pts.map fun p => [("x", AmScalar.int p.x), ("y", AmScalar.int p.y)]) =
    .ok (pts.map canon_pos) := by
  induction pts with
  | nil => rfl
  | cons p rest ih =>
      simp only [List.map_cons, read_freehand_points, ih]
      rfl

set_option maxHeartbeats 4000000 in
/-- One write / read pass reproduces a shape up to canonicalization of its
stored fields. -/
theorem read_write_canon (k : ShapeKind) :
    read_shape_kind (write_shape_kind k) = .ok (some (canonShape k)) := by
  cases k with
  | Line st en sty sc ec lab col =>
      cases sc <;> cases ec <;> cases lab <;>
        (rw [read_shape_kind_line]
         unfold read_line_fields
         rw [get_line_style_write _ sty, get_shape_color_write _ col]
         all_goals rfl)
  | Arrow st en sty sc ec lab col =>
      cases sc <;> cases ec <;> cases lab <;>
        (rw [read_shape_kind_arrow]
         unfold read_arrow_fields
         rw [get_line_style_write _ sty, get_shape_color_write _ col]
         all_goals rfl)
  | Rectangle st en lab col =>
      cases lab <;>
        (rw [read_shape_kind_rectangle]
         unfold read_rectangle_fields
         rw [get_shape_color_write _ col]
         all_goals rfl)
  | DoubleBox st en lab col =>
      cases lab <;>
        (rw [read_shape_kind_doublebox]
         unfold read_doublebox_fields
         rw [get_shape_color_write _ col]
         all_goals rfl)
  | Diamond c hw hh lab col =>
      cases lab <;>
        (rw [read_shape_kind_diamond]
         unfold read_diamond_fields
         rw [get_shape_color_write _ col]
         all_goals rfl)
  | Ellipse c rx ry lab col =>
      cases lab <;>
        (rw [read_shape_kind_ellipse]
         unfold read_ellipse_fields
         rw [get_shape_color_write _ col]
         all_goals rfl)
  | Freehand pts ch lab col =>
      cases lab with
      | none =>
          rw [read_shape_kind_freehand]
          unfold read_freehand_fields
          rw [show read_points_entry (write_shape_kind (.Freehand pts ch none col)) =
                .ok (pts.map canon_pos) from by
              unfold read_points_entry
              rw [show amGet (write_shape_kind (.Freehand pts ch none col)) "points" =
                    some (.pointList (pts.map fun p =>
                      [("x", AmScalar.int p.x), ("y", AmScalar.int p.y)])) from rfl]
              exact read_freehand_points_map pts]
          rw [get_shape_color_write _ col]
          all_goals rfl
      | some l =>
          rw [read_shape_kind_freehand]
          unfold read_freehand_fields
          rw [show read_points_entry (write_shape_kind (.Freehand pts ch (some l) col)) =
                .ok (pts.map canon_pos) from by
              unfold read_points_entry
              rw [show amGet (write_shape_kind (.Freehand pts ch (some l) col)) "points" =
                    some (.pointList (pts.map fun p =>
                      [("x", AmScalar.int p.x), ("y", AmScalar.int p.y)])) from rfl]
              exact read_freehand_points_map pts]
          rw [get_shape_color_write _ col]
          all_goals rfl
  | Text p content col =>
      rw [read_shape_kind_text]
      unfold read_text_fields
      rw [get_shape_color_write _ col]
      all_goals rfl
  | Triangle p1 p2 p3 lab col =>
      cases lab <;>
        (rw [read_shape_kind_triangle]
         unfold read_triangle_fields
         rw [get_shape_color_write _ col]
         all_goals rfl)
  | Parallelogram st en lab col =>
      cases lab <;>
        (rw [read_shape_kind_parallelogram]
         unfold read_parallelogram_fields
         rw [get_shape_color_write _ col]
         all_goals rfl)
  | Hexagon c rx ry lab col =>
      cases lab <;>
        (rw [read_shape_kind_hexagon]
         unfold read_hexagon_fields
         rw [get_shape_color_write _ col]
         all_goals rfl)
  | Trapezoid st en lab col =>
      cases lab <;>
        (rw [read_shape_kind_trapezoid]
         unfold read_trapezoid_fields
         rw [get_shape_color_write _ col]
         all_goals rfl)
  | RoundedRect st en lab col =>
      cases lab <;>
        (rw [read_shape_kind_roundedrect]
         unfold read_roundedrect_fields
         rw [get_shape_color_write _ col]
         all_goals rfl)
  | Cylinder st en lab col =>
      cases lab <;>
        (rw [read_shape_kind_cylinder]
         unfold read_cylinder_fields
         rw [get_shape_color_write _ col]
         all_goals rfl)
  | Cloud st en lab col =>
      cases lab <;>
        (rw [read_shape_kind_cloud]
         unfold read_cloud_fields
         rw [get_shape_color_write _ col]
         all_goals rfl)
  | Star c orad irad lab col =>
      cases lab <;>
        (rw [read_shape_kind_star]
         unfold read_star_fields
         rw [get_shape_color_write _ col]
         all_goals rfl)

/-!
Every value read_shape_kind produces is a fixed point of canonShape: each
field getter already applies the canonicalization.
-/

theorem bind_ok {α β : Type} {x : Res α} {f : α → Res β} {b : β}
    (h : (x >>= f) = .ok b) : ∃ a, x = .ok a ∧ f a = .ok b := by
  cases x with
  | ok a => exact ⟨a, rfl, h⟩
  | error e => simp [Bind.bind, Except.bind] at h

theorem canon_str_trim (l : List Char) :
    canon_str (trim_matches_quote l) = trim_matches_quote l :=
  canon_str_eq_self _ (fun c h => trim_head_ne l c h) (fun c h => trim_last_ne l c h)

theorem get_i32_wrap (m : AmMap) (key : String) (n : Int)
    (h : get_i32 m key = .ok n) : wrap32 n = n := by
  unfold get_i32 at h
  split at h
  · split at h
    · injection h with h
      rw [← h]
      exact wrap32_idem _
    · exact absurd h (by simp)
  · exact absurd h (by simp)

theorem get_string_trim_image (m : AmMap) (key : String) (s : List Char)
    (h : get_string m key = .ok s) : ∃ l, s = trim_matches_quote l := by
  unfold get_string at h
  split at h
  · injection h with h
    exact ⟨_, h.symm⟩
  · exact absurd h (by simp)

theorem get_string_canon (m : AmMap) (key : String) (s : List Char)
    (h : get_string m key = .ok s) : canon_str s = s := by
  obtain ⟨l, rfl⟩ := get_string_trim_image m key s h
  exact canon_str_trim l

theorem get_opt_string_canon (m : AmMap) (key : String) (o : Option (List Char))
    (h : get_opt_string m key = .ok o) : o.map canon_str = o := by
  unfold get_opt_string at h
  split at h
  · injection h with h
    rw [← h]
    simp [canon_str_trim]
  · injection h with h
    rw [← h]
    rfl

theorem get_opt_u64_canon (m : AmMap) (key : String) (o : Option Nat)
    (h : get_opt_u64 m key = .ok o) : o.map canon_conn = o := by
  unfold get_opt_u64 at h
  split at h
  · split at h
    · injection h with h
      rw [← h]
      simp only [Option.map_some']
      unfold canon_conn
      rw [toU64_toI64 _ (toU64_lt _)]
    · injection h with h
      rw [← h]
      rfl
  · injection h with h
    rw [← h]
    rfl

theorem canon_char_headD (l : List Char) :
    canon_char ((trim_matches_quote l).headD '*') = (trim_matches_quote l).headD '*' := by
  cases hcs : trim_matches_quote l with
  | nil =>
      simp only [List.headD_nil]
      exact canon_char_eq_self '*' (by decide)
  | cons d t =>
      simp only [List.headD_cons]
      refine canon_char_eq_self d (trim_head_ne l d ?_)
      rw [hcs]
      rfl

theorem point_get_i32_wrap (pm : List (String × AmScalar)) (key : String) (n : Int)
    (h : point_get_i32 pm key = .ok n) : wrap32 n = n := by
  unfold point_get_i32 at h
  split at h
  · split at h
    · injection h with h
      rw [← h]
      exact wrap32_idem _
    · exact absurd h (by simp)
  · exact absurd h (by simp)

theorem read_freehand_points_canon (pl : List (List (String × AmScalar)))
    (ps : List Position) (h : read_freehand_points pl = .ok ps) :
    ps.map canon_pos = ps := by
  induction pl generalizing ps with
  | nil =>
      unfold read_freehand_points at h
      injection h with h
      rw [← h]
      rfl
  | cons pm rest ih =>
      unfold read_freehand_points at h
      obtain ⟨x, hx, h⟩ := bind_ok h
      obtain ⟨y, hy, h⟩ := bind_ok h
      obtain ⟨tail, htail, h⟩ := bind_ok h
      injection h with h
      have hwx : wrap32 x = x := point_get_i32_wrap _ _ _ hx
      have hwy : wrap32 y = y := point_get_i32_wrap _ _ _ hy
      rw [← h]
      simp only [List.map_cons, ih tail htail]
      simp [canon_pos, hwx, hwy]

theorem read_points_entry_canon (m : AmMap) (ps : List Position)
    (h : read_points_entry m = .ok ps) : ps.map canon_pos = ps := by
  unfold read_points_entry at h
  split at h
  · exact read_freehand_points_canon _ _ h
  · exact read_freehand_points_canon _ _ h
  · injection h with h
    rw [← h]
    rfl

theorem canon_of_line_fields (m : AmMap) (k : ShapeKind)
    (h : read_line_fields m = .ok (some k)) : canonShape k = k := by
  unfold read_line_fields at h
  obtain ⟨sx, hsx, h⟩ := bind_ok h
  obtain ⟨sy, hsy, h⟩ := bind_ok h
  obtain ⟨ex, hex, h⟩ := bind_ok h
  obtain ⟨ey, hey, h⟩ := bind_ok h
  obtain ⟨sty, hsty, h⟩ := bind_ok h
  obtain ⟨sc, hsc, h⟩ := bind_ok h
  obtain ⟨ec, hec, h⟩ := bind_ok h
  obtain ⟨lab, hlab, h⟩ := bind_ok h
  obtain ⟨col, hcol, h⟩ := bind_ok h
  injection h with h
  injection h with h
  rw [← h]
  simp only [canonShape, canon_pos, get_i32_wrap _ _ _ hsx, get_i32_wrap _ _ _ hsy,
    get_i32_wrap _ _ _ hex, get_i32_wrap _ _ _ hey, get_opt_u64_canon _ _ _ hsc,
    get_opt_u64_canon _ _ _ hec, get_opt_string_canon _ _ _ hlab]

theorem canon_of_arrow_fields (m : AmMap) (k : ShapeKind)
    (h : read_arrow_fields m = .ok (some k)) : canonShape k = k := by
  unfold read_arrow_fields at h
  obtain ⟨sx, hsx, h⟩ := bind_ok h
  obtain ⟨sy, hsy, h⟩ := bind_ok h
  obtain ⟨ex, hex, h⟩ := bind_ok h
  obtain ⟨ey, hey, h⟩ := bind_ok h
  obtain ⟨sty, hsty, h⟩ := bind_ok h
  obtain ⟨sc, hsc, h⟩ := bind_ok h
  obtain ⟨ec, hec, h⟩ := bind_ok h
  obtain ⟨lab, hlab, h⟩ := bind_ok h
  obtain ⟨col, hcol, h⟩ := bind_ok h
  injection h with h
  injection h with h
  rw [← h]
  simp only [canonShape, canon_pos, get_i32_wrap _ _ _ hsx, get_i32_wrap _ _ _ hsy,
    get_i32_wrap _ _ _ hex, get_i32_wrap _ _ _ hey, get_opt_u64_canon _ _ _ hsc,
    get_opt_u64_canon _ _ _ hec, get_opt_string_canon _ _ _ hlab]

theorem canon_of_rectangle_fields (m : AmMap) (k : ShapeKind)
    (h : read_rectangle_fields m = .ok (some k)) : canonShape k = k := by
  unfold read_rectangle_fields at h
  obtain ⟨sx, hsx, h⟩ := bind_ok h
  obtain ⟨sy, hsy, h⟩ := bind_ok h
  obtain ⟨ex, hex, h⟩ := bind_ok h
  obtain ⟨ey, hey, h⟩ := bind_ok h
  obtain ⟨lab, hlab, h⟩ := bind_ok h
  obtain ⟨col, hcol, h⟩ := bind_ok h
  injection h with h
  injection h with h
  rw [← h]
  simp only [canonShape, canon_pos, get_i32_wrap _ _ _ hsx, get_i32_wrap _ _ _ hsy,
    get_i32_wrap _ _ _ hex, get_i32_wrap _ _ _ hey, get_opt_string_canon _ _ _ hlab]

theorem canon_of_doublebox_fields (m : AmMap) (k : ShapeKind)
    (h : read_doublebox_fields m = .ok (some k)) : canonShape k = k := by
  unfold read_doublebox_fields at h
  obtain ⟨sx, hsx, h⟩ := bind_ok h
  obtain ⟨sy, hsy, h⟩ := bind_ok h
  obtain ⟨ex, hex, h⟩ := bind_ok h
  obtain ⟨ey, hey, h⟩ := bind_ok h
  obtain ⟨lab, hlab, h⟩ := bind_ok h
  obtain ⟨col, hcol, h⟩ := bind_ok h
  injection h with h
  injection h with h
  rw [← h]
  simp only [canonShape, canon_pos, get_i32_wrap _ _ _ hsx, get_i32_wrap _ _ _ hsy,
    get_i32_wrap _ _ _ hex, get_i32_wrap _ _ _ hey, get_opt_string_canon _ _ _ hlab]

theorem canon_of_diamond_fields (m : AmMap) (k : ShapeKind)
    (h : read_diamond_fields m = .ok (some k)) : canonShape k = k := by
  unfold read_diamond_fields at h
  obtain ⟨sx, hsx, h⟩ := bind_ok h
  obtain ⟨sy, hsy, h⟩ := bind_ok h
  obtain ⟨ex, hex, h⟩ := bind_ok h
  obtain ⟨ey, hey, h⟩ := bind_ok h
  obtain ⟨lab, hlab, h⟩ := bind_ok h
  obtain ⟨col, hcol, h⟩ := bind_ok h
  injection h with h
  injection h with h
  rw [← h]
  simp only [canonShape, canon_pos, get_i32_wrap _ _ _ hsx, get_i32_wrap _ _ _ hsy,
    get_i32_wrap _ _ _ hex, get_i32_wrap _ _ _ hey, get_opt_string_canon _ _ _ hlab]

theorem canon_of_ellipse_fields (m : AmMap) (k : ShapeKind)
    (h : read_ellipse_fields m = .ok (some k)) : canonShape k = k := by
  unfold read_ellipse_fields at h
  obtain ⟨sx, hsx, h⟩ := bind_ok h
  obtain ⟨sy, hsy, h⟩ := bind_ok h
  obtain ⟨ex, hex, h⟩ := bind_ok h
  obtain ⟨ey, hey, h⟩ := bind_ok h
  obtain ⟨lab, hlab, h⟩ := bind_ok h
  obtain ⟨col, hcol, h⟩ := bind_ok h
  injection h with h
  injection h with h
  rw [← h]
  simp only [canonShape, canon_pos, get_i32_wrap _ _ _ hsx, get_i32_wrap _ _ _ hsy,
    get_i32_wrap _ _ _ hex, get_i32_wrap _ _ _ hey, get_opt_string_canon _ _ _ hlab]

theorem canon_of_hexagon_fields (m : AmMap) (k : ShapeKind)
    (h : read_hexagon_fields m = .ok (some k)) : canonShape k = k := by
  unfold read_hexagon_fields at h
  obtain ⟨sx, hsx, h⟩ := bind_ok h
  obtain ⟨sy, hsy, h⟩ := bind_ok h
  obtain ⟨ex, hex, h⟩ := bind_ok h
  obtain ⟨ey, hey, h⟩ := bind_ok h
  obtain ⟨lab, hlab, h⟩ := bind_ok h
  obtain ⟨col, hcol, h⟩ := bind_ok h
  injection h with h
  injection h with h
  rw [← h]
  simp only [canonShape, canon_pos, get_i32_wrap _ _ _ hsx, get_i32_wrap _ _ _ hsy,
    get_i32_wrap _ _ _ hex, get_i32_wrap _ _ _ hey, get_opt_string_canon _ _ _ hlab]

theorem canon_of_star_fields (m : AmMap) (k : ShapeKind)
    (h : read_star_fields m = .ok (some k)) : canonShape k = k := by
  unfold read_star_fields at h
  obtain ⟨sx, hsx, h⟩ := bind_ok h
  obtain ⟨sy, hsy, h⟩ := bind_ok h
  obtain ⟨ex, hex, h⟩ := bind_ok h
  obtain ⟨ey, hey, h⟩ := bind_ok h
  obtain ⟨lab, hlab, h⟩ := bind_ok h
  obtain ⟨col, hcol, h⟩ := bind_ok h
  injection h with h
  injection h with h
  rw [← h]
  simp only [canonShape, canon_pos, get_i32_wrap _ _ _ hsx, get_i32_wrap _ _ _ hsy,
    get_i32_wrap _ _ _ hex, get_i32_wrap _ _ _ hey, get_opt_string_canon _ _ _ hlab]

theorem canon_of_parallelogram_fields (m : AmMap) (k : ShapeKind)
    (h : read_parallelogram_fields m = .ok (some k)) : canonShape k = k := by
  unfold read_parallelogram_fields at h
  obtain ⟨sx, hsx, h⟩ := bind_ok h
  obtain ⟨sy, hsy, h⟩ := bind_ok h
  obtain ⟨ex, hex, h⟩ := bind_ok h
  obtain ⟨ey, hey, h⟩ := bind_ok h
  obtain ⟨lab, hlab, h⟩ := bind_ok h
  obtain ⟨col, hcol, h⟩ := bind_ok h
  injection h with h
  injection h with h
  rw [← h]
  simp only [canonShape, canon_pos, get_i32_wrap _ _ _ hsx, get_i32_wrap _ _ _ hsy,
    get_i32_wrap _ _ _ hex, get_i32_wrap _ _ _ hey, get_opt_string_canon _ _ _ hlab]

theorem canon_of_trapezoid_fields (m : AmMap) (k : ShapeKind)
    (h : read_trapezoid_fields m = .ok (some k)) : canonShape k = k := by
  unfold read_trapezoid_fields at h
  obtain ⟨sx, hsx, h⟩ := bind_ok h
  obtain ⟨sy, hsy, h⟩ := bind_ok h
  obtain ⟨ex, hex, h⟩ := bind_ok h
  obtain ⟨ey, hey, h⟩ := bind_ok h
  obtain ⟨lab, hlab, h⟩ := bind_ok h
  obtain ⟨col, hcol, h⟩ := bind_ok h
  injection h with h
  injection h with h
  rw [← h]
  simp only [canonShape, canon_pos, get_i32_wrap _ _ _ hsx, get_i32_wrap _ _ _ hsy,
    get_i32_wrap _ _ _ hex, get_i32_wrap _ _ _ hey, get_opt_string_canon _ _ _ hlab]

theorem canon_of_roundedrect_fields (m : AmMap) (k : ShapeKind)
    (h : read_roundedrect_fields m = .ok (some k)) : canonShape k = k := by
  unfold read_roundedrect_fields at h
  obtain ⟨sx, hsx, h⟩ := bind_ok h
  obtain ⟨sy, hsy, h⟩ := bind_ok h
  obtain ⟨ex, hex, h⟩ := bind_ok h
  obtain ⟨ey, hey, h⟩ := bind_ok h
  obtain ⟨lab, hlab, h⟩ := bind_ok h
  obtain ⟨col, hcol, h⟩ := bind_ok h
  injection h with h
  injection h with h
  rw [← h]
  simp only [canonShape, canon_pos, get_i32_wrap _ _ _ hsx, get_i32_wrap _ _ _ hsy,
    get_i32_wrap _ _ _ hex, get_i32_wrap _ _ _ hey, get_opt_string_canon _ _ _ hlab]

theorem canon_of_cylinder_fields (m : AmMap) (k : ShapeKind)
    (h : read_cylinder_fields m = .ok (some k)) : canonShape k = k := by
  unfold read_cylinder_fields at h
  obtain ⟨sx, hsx, h⟩ := bind_ok h
  obtain ⟨sy, hsy, h⟩ := bind_ok h
  obtain ⟨ex, hex, h⟩ := bind_ok h
  obtain ⟨ey, hey, h⟩ := bind_ok h
  obtain ⟨lab, hlab, h⟩ := bind_ok h
  obtain ⟨col, hcol, h⟩ := bind_ok h
  injection h with h
  injection h with h
  rw [← h]
  simp only [canonShape, canon_pos, get_i32_wrap _ _ _ hsx, get_i32_wrap _ _ _ hsy,
    get_i32_wrap _ _ _ hex, get_i32_wrap _ _ _ hey, get_opt_string_canon _ _ _ hlab]

theorem canon_of_cloud_fields (m : AmMap) (k : ShapeKind)
    (h : read_cloud_fields m = .ok (some k)) : canonShape k = k := by
  unfold read_cloud_fields at h
  obtain ⟨sx, hsx, h⟩ := bind_ok h
  obtain ⟨sy, hsy, h⟩ := bind_ok h
  obtain ⟨ex, hex, h⟩ := bind_ok h
  obtain ⟨ey, hey, h⟩ := bind_ok h
  obtain ⟨lab, hlab, h⟩ := bind_ok h
  obtain ⟨col, hcol, h⟩ := bind_ok h
  injection h with h
  injection h with h
  rw [← h]
  simp only [canonShape, canon_pos, get_i32_wrap _ _ _ hsx, get_i32_wrap _ _ _ hsy,
    get_i32_wrap _ _ _ hex, get_i32_wrap _ _ _ hey, get_opt_string_canon _ _ _ hlab]

theorem canon_of_freehand_fields (m : AmMap) (k : ShapeKind)
    (h : read_freehand_fields m = .ok (some k)) : canonShape k = k := by
  unfold read_freehand_fields at h
  obtain ⟨char_str, hch, h⟩ := bind_ok h
  obtain ⟨pts, hpts, h⟩ := bind_ok h
  obtain ⟨lab, hlab, h⟩ := bind_ok h
  obtain ⟨col, hcol, h⟩ := bind_ok h
  injection h with h
  injection h with h
  obtain ⟨l, rfl⟩ := get_string_trim_image m "char" char_str hch
  rw [← h]
  simp only [canonShape, read_points_entry_canon _ _ hpts,
    get_opt_string_canon _ _ _ hlab, canon_char_headD]

theorem canon_of_text_fields (m : AmMap) (k : ShapeKind)
    (h : read_text_fields m = .ok (some k)) : canonShape k = k := by
  unfold read_text_fields at h
  obtain ⟨px, hpx, h⟩ := bind_ok h
  obtain ⟨py, hpy, h⟩ := bind_ok h
  obtain ⟨content, hcontent, h⟩ := bind_ok h
  obtain ⟨col, hcol, h⟩ := bind_ok h
  injection h with h
  injection h with h
  rw [← h]
  simp only [canonShape, canon_pos, get_i32_wrap _ _ _ hpx, get_i32_wrap _ _ _ hpy,
    get_string_canon _ _ _ hcontent]

theorem canon_of_triangle_fields (m : AmMap) (k : ShapeKind)
    (h : read_triangle_fields m = .ok (some k)) : canonShape k = k := by
  unfold read_triangle_fields at h
  obtain ⟨x1, hx1, h⟩ := bind_ok h
  obtain ⟨y1, hy1, h⟩ := bind_ok h
  obtain ⟨x2, hx2, h⟩ := bind_ok h
  obtain ⟨y2, hy2, h⟩ := bind_ok h
  obtain ⟨x3, hx3, h⟩ := bind_ok h
  obtain ⟨y3, hy3, h⟩ := bind_ok h
  obtain ⟨lab, hlab, h⟩ := bind_ok h
  obtain ⟨col, hcol, h⟩ := bind_ok h
  injection h with h
  injection h with h
  rw [← h]
  simp only [canonShape, canon_pos, get_i32_wrap _ _ _ hx1, get_i32_wrap _ _ _ hy1,
    get_i32_wrap _ _ _ hx2, get_i32_wrap _ _ _ hy2, get_i32_wrap _ _ _ hx3,
    get_i32_wrap _ _ _ hy3, get_opt_string_canon _ _ _ hlab]

/-- Every shape read_shape_kind yields is a fixed point of canonShape. -/
theorem read_canon (m : AmMap) (k : ShapeKind)
    (h : read_shape_kind m = .ok (some k)) : canonShape k = k := by
  unfold read_shape_kind at h
  cases hm : amGet m "kind" with
  | none =>
      rw [hm] at h
      unfold read_shape_tag at h
      simp at h
  | some e =>
      rw [hm] at h
      cases e with
      | pointList pl =>
          unfold read_shape_tag at h
          simp at h
      | scalar s =>
          unfold read_shape_tag at h
          simp only [] at h
          by_cases hc0 : kind_tag s = "Line".data
          · rw [if_pos hc0] at h
            exact canon_of_line_fields _ _ h
          · rw [if_neg hc0] at h
            by_cases hc1 : kind_tag s = "Arrow".data
            · rw [if_pos hc1] at h
              exact canon_of_arrow_fields _ _ h
            · rw [if_neg hc1] at h
              by_cases hc2 : kind_tag s = "Rectangle".data
              · rw [if_pos hc2] at h
                exact canon_of_rectangle_fields _ _ h
              · rw [if_neg hc2] at h
                by_cases hc3 : kind_tag s = "DoubleBox".data
                · rw [if_pos hc3] at h
                  exact canon_of_doublebox_fields _ _ h
                · rw [if_neg hc3] at h
                  by_cases hc4 : kind_tag s = "Diamond".data
                  · rw [if_pos hc4] at h
                    exact canon_of_diamond_fields _ _ h
                  · rw [if_neg hc4] at h
                    by_cases hc5 : kind_tag s = "Ellipse".data
                    · rw [if_pos hc5] at h
                      exact canon_of_ellipse_fields _ _ h
                    · rw [if_neg hc5] at h
                      by_cases hc6 : kind_tag s = "Freehand".data
                      · rw [if_pos hc6] at h
                        exact canon_of_freehand_fields _ _ h
                      · rw [if_neg hc6] at h
                        by_cases hc7 : kind_tag s = "Text".data
                        · rw [if_pos hc7] at h
                          exact canon_of_text_fields _ _ h
                        · rw [if_neg hc7] at h
                          by_cases hc8 : kind_tag s = "Triangle".data
                          · rw [if_pos hc8] at h
                            exact canon_of_triangle_fields _ _ h
                          · rw [if_neg hc8] at h
                            by_cases hc9 : kind_tag s = "Parallelogram".data
                            · rw [if_pos hc9] at h
                              exact canon_of_parallelogram_fields _ _ h
                            · rw [if_neg hc9] at h
                              by_cases hc10 : kind_tag s = "Hexagon".data
                              · rw [if_pos hc10] at h
                                exact canon_of_hexagon_fields _ _ h
                              · rw [if_neg hc10] at h
                                by_cases hc11 : kind_tag s = "Trapezoid".data
                                · rw [if_pos hc11] at h
                                  exact canon_of_trapezoid_fields _ _ h
                                · rw [if_neg hc11] at h
                                  by_cases hc12 : kind_tag s = "RoundedRect".data
                                  · rw [if_pos hc12] at h
                                    exact canon_of_roundedrect_fields _ _ h
                                  · rw [if_neg hc12] at h
                                    by_cases hc13 : kind_tag s = "Cylinder".data
                                    · rw [if_pos hc13] at h
                                      exact canon_of_cylinder_fields _ _ h
                                    · rw [if_neg hc13] at h
                                      by_cases hc14 : kind_tag s = "Cloud".data
                                      · rw [if_pos hc14] at h
                                        exact canon_of_cloud_fields _ _ h
                                      · rw [if_neg hc14] at h
                                        by_cases hc15 : kind_tag s = "Star".data
                                        · rw [if_pos hc15] at h
                                          exact canon_of_star_fields _ _ h
                                        · rw [if_neg hc15] at h
                                          exact absurd h (by simp)

/-!
The Document store (src/document.rs struct Document).  The automerge root
holds shapes (map id to shape object), shape_order (list), layers (map),
layer_order (list) and the undo/redo snapshot lists.  UUID keys are
modelled as Nat; undo snapshots, which the Rust code serializes with
rmp_serde (an exact serde round-trip), are modelled by the value they
encode.  The root objects always exist (Document::new creates them), so
the get_*_map / get_*_stack error paths of the Rust code are
unrepresentable here and operations that only fail on those paths return
Ok; they keep the Result type of the source.
-/

/-- Association-list get, the automerge doc.get on a Nat-keyed map. -/
def assocGet {α : Type} : List (Nat × α) → Nat → Option α
| [], _ => none
| (k', v') :: rest, k => if k' = k then some v' else assocGet rest k

/-- Association-list put, the automerge put_object: overwrite or append. -/
def assocPut {α : Type} : List (Nat × α) → Nat → α → List (Nat × α)
| [], k, v => [(k, v)]
| (k', v') :: rest, k, v =>
    if k' = k then (k, v) :: rest else (k', v') :: assocPut rest k v

/-- Association-list delete; deleting a missing key is a no-op. -/
def assocDel {α : Type} : List (Nat × α) → Nat → List (Nat × α)
| [], _ => []
| (k', v') :: rest, k => if k' = k then rest else (k', v') :: assocDel rest k

/-- The source loops over a list from the back and deletes the first entry
equal to the id (src/document.rs delete_shape, delete_layer): remove the
last occurrence. -/
def eraseLastOcc (l : List Nat) (x : Nat) : List Nat := (l.reverse.erase x).reverse

/-- Layer record (src/layers.rs struct Layer, sans its id, which keys the
layers map). -/
structure LayerRec where
  name : List Char
  visible : Bool
  locked : Bool
deriving DecidableEq, Repr

/-- An undo/redo snapshot: the Vec of (ShapeId, ShapeKind) pairs that
serialize_shapes encodes with rmp_serde. -/
abbrev Snapshot := List (Nat × ShapeKind)

/-- The automerge-backed document (src/document.rs struct Document),
restricted to the root objects the claims touch. -/
structure Document where
  shapes : List (Nat × AmMap)
  shape_order : List Nat
  layers : List (Nat × LayerRec)
  layer_order : List Nat
  undo_stack : List Snapshot
  redo_stack : List Snapshot
deriving Repr

/-- src/document.rs Document::read_shape. -/
def read_shape (d : Document) (id : Nat) : Res (Option ShapeKind) :=
  match assocGet d.shapes id with
  | some m => read_shape_kind m
  | none => .ok none

/-- src/document.rs Document::read_all_shapes: iterate the shapes map;
unreadable records (Ok(None)) are skipped, decode errors abort the read. -/
def read_all_shapes : List (Nat × AmMap) → Res (List (Nat × ShapeKind))
| [] => .ok []
| (id, m) :: rest => do
    let k? ← read_shape_kind m
    let tail ← read_all_shapes rest
    match k? with
    | some k => .ok ((id, k) :: tail)
    | none => .ok tail

/-- src/document.rs Document::add_shape: a fresh id (ShapeId::new, a random
UUID, modelled as a caller-supplied id) maps to the encoded record and is
appended to the end of shape_order. -/
def add_shape (d : Document) (id : Nat) (k : ShapeKind) : Res Document :=
  .ok { d with
    shapes := assocPut d.shapes id (write_shape_kind k),
    shape_order := d.shape_order ++ [id] }

/-- src/document.rs Document::update_shape: delete the old shape object and
recreate it under the same id. -/
def update_shape (d : Document) (id : Nat) (k : ShapeKind) : Res Document :=
  .ok { d with shapes := assocPut (assocDel d.shapes id) id (write_shape_kind k) }

/-- src/document.rs Document::delete_shape: remove the record and the last
matching shape_order entry (the removal loop runs from the back and stops
at the first hit). -/
def delete_shape (d : Document) (id : Nat) : Res Document :=
  .ok { d with
    shapes := assocDel d.shapes id,
    shape_order := eraseLastOcc d.shape_order id }

/-- src/document.rs Document::read_shape_order. -/
def read_shape_order (d : Document) : Res (List Nat) := .ok d.shape_order

/-- src/document.rs Document::set_shape_order: clear the list and reinsert
the given order. -/
def set_shape_order (d : Document) (order : List Nat) : Res Document :=
  .ok { d with shape_order := order }

/-- src/document.rs Document::bring_to_front: retain keeps the unselected
shapes in order while collecting the selected ones in order; the selected
ones are appended at the end (top). -/
def bring_to_front (d : Document) (ids : List Nat) : Res Document :=
  if ids = [] then .ok d
  else
    set_shape_order d
      ((d.shape_order.filter fun x => ¬ ids.contains x) ++
        (d.shape_order.filter fun x => ids.contains x))

/-- src/document.rs Document::send_to_back: the selected shapes, in order,
are prepended at the start (bottom). -/
def send_to_back (d : Document) (ids : List Nat) : Res Document :=
  if ids = [] then .ok d
  else
    set_shape_order d
      ((d.shape_order.filter fun x => ids.contains x) ++
        (d.shape_order.filter fun x => ¬ ids.contains x))

/-- src/document.rs Document::get_shape_layer: the layer_id field parsed as
a UUID; a missing shape, missing field or parse failure yields None. -/
def get_shape_layer (d : Document) (id : Nat) : Res (Option Nat) :=
  match assocGet d.shapes id with
  | some m =>
      match amGet m "layer_id" with
      | some (.scalar (.idStr n)) => .ok (some n)
      | _ => .ok none
  | none => .ok none

/-- src/document.rs Document::set_shape_layer: put the layer_id field on
the shape object when the shape exists. -/
def set_shape_layer (d : Document) (id lid : Nat) : Res Document :=
  match assocGet d.shapes id with
  | some m =>
      .ok { d with shapes := assocPut d.shapes id (amPut m "layer_id" (.scalar (.idStr lid))) }
  | none => .ok d

/-- The shape-reassignment loop of src/document.rs Document::delete_layer:
every shape of the read snapshot whose layer is the deleted one is moved
to the surviving default layer; get_shape_layer errors are skipped. -/
def delete_layer_moves (d : Document) (all : List (Nat × ShapeKind))
    (deleted default_layer : Nat) : Res Document :=
  match all with
  | [] => .ok d
  | (sid, _) :: rest =>
      match get_shape_layer d sid with
      | .ok (some l) =>
          if l = deleted then do
            let d' ← set_shape_layer d sid default_layer
            delete_layer_moves d' rest deleted default_layer
          else delete_layer_moves d rest deleted default_layer
      | _ => delete_layer_moves d rest deleted default_layer

/-- src/document.rs Document::delete_layer: rejected when only one layer
remains; otherwise shapes on the layer move to the first other layer in
order and the layer record and its order entry are removed. -/
def delete_layer (d : Document) (id : Nat) : Res Document :=
  if d.layer_order.length ≤ 1 then .error "Cannot delete the last layer"
  else
    match d.layer_order.find? (fun lid => lid != id) with
    | none => .error "No other layer to move shapes to"
    | some default_layer => do
        let all ← read_all_shapes d.shapes
        let d' ← delete_layer_moves d all id default_layer
        .ok { d' with
          layers := assocDel d'.layers id,
          layer_order := eraseLastOcc d'.layer_order id }

/-- src/document.rs Document::MAX_UNDO_HISTORY. -/
def MAX_UNDO_HISTORY : Nat := 50

/-- The trim loop of push_undo_checkpoint: while the stack holds more than
MAX_UNDO_HISTORY entries it deletes index 0, i.e. it drops the oldest
(front) entries beyond the bound. -/
def trim_undo (l : List Snapshot) : List Snapshot :=
  l.drop (l.length - MAX_UNDO_HISTORY)

/-- src/document.rs Document::serialize_shapes (rmp_serde encoding modelled
by the encoded value). -/
def serialize_shapes (d : Document) : Res Snapshot := read_all_shapes d.shapes

/-- src/document.rs Document::push_undo_checkpoint: clear the redo stack,
append the snapshot, trim to the bound. -/
def push_undo_checkpoint (d : Document) : Res Document := do
  let snap ← serialize_shapes d
  .ok { d with
    redo_stack := [],
    undo_stack := trim_undo (d.undo_stack ++ [snap]) }

/-- The restore step of global_undo / global_redo: delete every current
shapes entry, then put_object each snapshot pair back through
write_shape_kind. -/
def restore_shapes (snap : Snapshot) : List (Nat × AmMap) :=
  snap.foldl (fun acc p => assocPut acc p.1 (write_shape_kind p.2)) []

/-- src/document.rs Document::global_undo: with an empty undo stack report
false; otherwise pop the last snapshot, push the current serialization to
the redo stack and replace the shapes map with the snapshot contents. -/
def global_undo (d : Document) : Res (Document × Bool) :=
  match d.undo_stack.getLast? with
  | none => .ok (d, false)
  | some prev => do
      let cur ← serialize_shapes d
      .ok ({ d with
        shapes := restore_shapes prev,
        undo_stack := d.undo_stack.dropLast,
        redo_stack := d.redo_stack ++ [cur] }, true)

/-- src/document.rs Document::global_redo: the mirror of global_undo. -/
def global_redo (d : Document) : Res (Document × Bool) :=
  match d.redo_stack.getLast? with
  | none => .ok (d, false)
  | some next => do
      let cur ← serialize_shapes d
      .ok ({ d with
        shapes := restore_shapes next,
        redo_stack := d.redo_stack.dropLast,
        undo_stack := d.undo_stack ++ [cur] }, true)

/-!
Well-formedness of reachable documents, and the key facts about reading,
restoring and trimming that the undo/redo and layering claims rest upon.
-/

/-- Every stored shape record decodes without error (locally created
records always do: they were produced by write_shape_kind). -/
def ReadableShapes (shapes : List (Nat × AmMap)) : Prop :=
  ∀ p ∈ shapes, ∃ v, read_shape_kind p.2 = .ok v

/-- Every stored shape record decodes to an actual shape. -/
def FullyReadable (shapes : List (Nat × AmMap)) : Prop :=
  ∀ p ∈ shapes, ∃ k, read_shape_kind p.2 = .ok (some k)

/-- Map keys are distinct, the invariant of an automerge map object. -/
def NodupKeys {α : Type} (l : List (Nat × α)) : Prop := (l.map Prod.fst).Nodup

theorem assocGet_put_self {α : Type} (l : List (Nat × α)) (k : Nat) (v : α) :
    assocGet (assocPut l k v) k = some v := by
  induction l with
  | nil => simp [assocPut, assocGet]
  | cons p rest ih =>
      obtain ⟨k', v'⟩ := p
      by_cases hk : k' = k
      · simp [assocPut, assocGet, hk]
      · simp [assocPut, assocGet, hk, ih]

theorem assocGet_put_ne {α : Type} (l : List (Nat × α)) (k j : Nat) (v : α)
    (h : k ≠ j) : assocGet (assocPut l k v) j = assocGet l j := by
  induction l with
  | nil => simp [assocPut, assocGet, h]
  | cons p rest ih =>
      obtain ⟨k', v'⟩ := p
      by_cases hk : k' = k
      · subst hk
        simp [assocPut, assocGet, h]
      · by_cases hj : k' = j
        · subst hj
          simp [assocPut, assocGet, hk]
        · simp [assocPut, assocGet, hk, hj, ih]

theorem assocGet_eq_none_of_not_mem {α : Type} (l : List (Nat × α)) (k : Nat)
    (h : k ∉ l.map Prod.fst) : assocGet l k = none := by
  induction l with
  | nil => rfl
  | cons p rest ih =>
      obtain ⟨k', v'⟩ := p
      simp only [List.map_cons, List.mem_cons] at h
      push_neg at h
      simp [assocGet, Ne.symm h.1, ih h.2]

theorem assocGet_del_self {α : Type} (l : List (Nat × α)) (k : Nat)
    (hnd : NodupKeys l) : assocGet (assocDel l k) k = none := by
  induction l with
  | nil => simp [assocDel, assocGet]
  | cons p rest ih =>
      obtain ⟨k', v'⟩ := p
      obtain ⟨hk1, hk2⟩ : k' ∉ rest.map Prod.fst ∧ (rest.map Prod.fst).Nodup := by
        simpa [NodupKeys] using hnd
      by_cases hk : k' = k
      · subst hk
        simp only [assocDel, if_pos rfl]
        exact assocGet_eq_none_of_not_mem rest k' hk1
      · simp [assocDel, assocGet, hk, ih hk2]

theorem assocGet_del_ne {α : Type} (l : List (Nat × α)) (k j : Nat)
    (h : k ≠ j) : assocGet (assocDel l k) j = assocGet l j := by
  induction l with
  | nil => simp [assocDel, assocGet]
  | cons p rest ih =>
      obtain ⟨k', v'⟩ := p
      by_cases hk : k' = k
      · subst hk
        simp [assocDel, assocGet, h]
      · simp [assocDel, assocGet, hk, ih]

theorem assocDel_of_not_mem {α : Type} (l : List (Nat × α)) (k : Nat)
    (h : k ∉ l.map Prod.fst) : assocDel l k = l := by
  induction l with
  | nil => rfl
  | cons p rest ih =>
      obtain ⟨k', v'⟩ := p
      simp only [List.map_cons, List.mem_cons] at h
      push_neg at h
      simp [assocDel, Ne.symm h.1, ih h.2]

theorem eraseLastOcc_of_not_mem (l : List Nat) (x : Nat) (h : x ∉ l) :
    eraseLastOcc l x = l := by
  unfold eraseLastOcc
  rw [List.erase_of_not_mem (by simpa using h)]
  exact List.reverse_reverse l

theorem read_all_shapes_ok (shapes : List (Nat × AmMap))
    (h : ReadableShapes shapes) : ∃ s, read_all_shapes shapes = .ok s := by
  induction shapes with
  | nil => exact ⟨[], rfl⟩
  | cons p rest ih =>
      obtain ⟨v, hv⟩ := h p (by simp)
      obtain ⟨s, hs⟩ := ih (fun q hq => h q (by simp [hq]))
      obtain ⟨id, m⟩ := p
      have hv' : read_shape_kind m = .ok v := hv
      cases v with
      | some k =>
          refine ⟨(id, k) :: s, ?_⟩
          unfold read_all_shapes
          rw [hv']
          simp only [Bind.bind, Except.bind, hs]
      | none =>
          refine ⟨s, ?_⟩
          unfold read_all_shapes
          rw [hv']
          simp only [Bind.bind, Except.bind, hs]

theorem read_all_shapes_canon (shapes : List (Nat × AmMap)) (s : Snapshot)
    (h : read_all_shapes shapes = .ok s) : ∀ p ∈ s, canonShape p.2 = p.2 := by
  induction shapes generalizing s with
  | nil =>
      unfold read_all_shapes at h
      injection h with h
      rw [← h]
      intro p hp
      exact absurd hp (by simp)
  | cons q rest ih =>
      obtain ⟨id, m⟩ := q
      unfold read_all_shapes at h
      obtain ⟨k?, hk, h⟩ := bind_ok h
      obtain ⟨tail, htail, h⟩ := bind_ok h
      intro p hp
      cases k? with
      | none =>
          injection h with h
          rw [← h] at hp
          exact ih tail htail p hp
      | some k =>
          injection h with h
          rw [← h] at hp
          cases hp with
          | head => exact read_canon m k hk
          | tail _ hmem => exact ih tail htail p hmem

theorem read_all_shapes_keys_sublist (shapes : List (Nat × AmMap)) (s : Snapshot)
    (h : read_all_shapes shapes = .ok s) :
    List.Sublist (s.map Prod.fst) (shapes.map Prod.fst) := by
  induction shapes generalizing s with
  | nil =>
      unfold read_all_shapes at h
      injection h with h
      rw [← h]
      exact List.Sublist.refl _
  | cons q rest ih =>
      obtain ⟨id, m⟩ := q
      unfold read_all_shapes at h
      obtain ⟨k?, hk, h⟩ := bind_ok h
      obtain ⟨tail, htail, h⟩ := bind_ok h
      cases k? with
      | none =>
          injection h with h
          rw [← h]
          exact (ih tail htail).trans (List.sublist_cons_self _ _)
      | some k =>
          injection h with h
          rw [← h]
          simpa using List.Sublist.cons₂ id (ih tail htail)

theorem read_all_shapes_mem (shapes : List (Nat × AmMap)) (s : Snapshot)
    (h : read_all_shapes shapes = .ok s) (id : Nat) (m : AmMap) (k : ShapeKind)
    (hmem : (id, m) ∈ shapes) (hk : read_shape_kind m = .ok (some k)) :
    id ∈ s.map Prod.fst := by
  induction shapes generalizing s with
  | nil => exact absurd hmem (by simp)
  | cons q rest ih =>
      obtain ⟨id', m'⟩ := q
      rcases List.mem_cons.mp hmem with heq | hmem'
      · cases heq
        unfold read_all_shapes at h
        obtain ⟨k?, hk', h⟩ := bind_ok h
        obtain ⟨tail, htail, h⟩ := bind_ok h
        rw [hk] at hk'
        injection hk' with hk'
        rw [← hk'] at h
        injection h with h
        rw [← h]
        simp
      · unfold read_all_shapes at h
        obtain ⟨k?, hk', h⟩ := bind_ok h
        obtain ⟨tail, htail, h⟩ := bind_ok h
        have hin := ih tail htail hmem'
        cases k? with
        | none =>
            injection h with h
            rw [← h]
            exact hin
        | some kk =>
            injection h with h
            rw [← h]
            simp [hin]

theorem assocPut_fresh {α : Type} (l : List (Nat × α)) (k : Nat) (v : α)
    (h : k ∉ l.map Prod.fst) : assocPut l k v = l ++ [(k, v)] := by
  induction l with
  | nil => rfl
  | cons p rest ih =>
      obtain ⟨k', v'⟩ := p
      simp only [List.map_cons, List.mem_cons] at h
      push_neg at h
      simp [assocPut, Ne.symm h.1, ih h.2]

theorem restore_foldl (snap : Snapshot) : ∀ acc : List (Nat × AmMap),
    (∀ q ∈ snap, q.1 ∉ acc.map Prod.fst) → (snap.map Prod.fst).Nodup →
    snap.foldl (fun acc p => assocPut acc p.1 (write_shape_kind p.2)) acc =
      acc ++ snap.map fun p => (p.1, write_shape_kind p.2) := by
  induction snap with
  | nil =>
      intro acc _ _
      simp
  | cons p rest ih =>
      intro acc hdis hnd
      obtain ⟨id, k⟩ := p
      simp only [List.foldl_cons]
      rw [assocPut_fresh acc id _ (hdis (id, k) (List.mem_cons_self _ _))]
      obtain ⟨hid_notin, hnd'⟩ : id ∉ rest.map Prod.fst ∧ (rest.map Prod.fst).Nodup := by
        simpa using hnd
      have hdis' : ∀ q ∈ rest, q.1 ∉ (acc ++ [(id, write_shape_kind k)]).map Prod.fst := by
        intro q hq hcon
        simp only [List.map_append, List.map_cons, List.map_nil] at hcon
        rcases List.mem_append.mp hcon with hc | hc
        · exact hdis q (List.mem_cons_of_mem _ hq) hc
        · have hqid : q.1 = id := by simpa using hc
          exact hid_notin (hqid ▸ List.mem_map_of_mem Prod.fst hq)
      rw [ih _ hdis' hnd']
      simp

theorem restore_shapes_eq_map (snap : Snapshot) (hnd : (snap.map Prod.fst).Nodup) :
    restore_shapes snap = snap.map fun p => (p.1, write_shape_kind p.2) := by
  unfold restore_shapes
  simpa using restore_foldl snap [] (by simp) hnd

/-- A snapshot whose ids are distinct and whose shapes are canonical; every
snapshot taken by serialize_shapes on a well-formed document is such. -/
def SnapOK (s : Snapshot) : Prop :=
  (s.map Prod.fst).Nodup ∧ ∀ p ∈ s, canonShape p.2 = p.2

theorem read_restore (snap : Snapshot) (hnd : (snap.map Prod.fst).Nodup)
    (hcanon : ∀ p ∈ snap, canonShape p.2 = p.2) :
    read_all_shapes (restore_shapes snap) = .ok snap := by
  rw [restore_shapes_eq_map snap hnd]
  clear hnd
  revert hcanon
  induction snap with
  | nil =>
      intro _
      rfl
  | cons q rest ih =>
      intro hcanon
      obtain ⟨id, k⟩ := q
      simp only [List.map_cons]
      unfold read_all_shapes
      have hc : canonShape k = k := hcanon (id, k) (List.mem_cons_self _ _)
      rw [read_write_canon k, hc, ih fun p hp => hcanon p (List.mem_cons_of_mem _ hp)]
      rfl

theorem mem_assocPut {α : Type} (l : List (Nat × α)) (k : Nat) (v : α) (p : Nat × α)
    (h : p ∈ assocPut l k v) : p ∈ l ∨ p = (k, v) := by
  induction l with
  | nil =>
      simp [assocPut] at h
      exact Or.inr h
  | cons q rest ih =>
      obtain ⟨k', v'⟩ := q
      by_cases hk : k' = k
      · simp only [assocPut, if_pos hk] at h
        rcases List.mem_cons.mp h with hc | hc
        · exact Or.inr hc
        · exact Or.inl (List.mem_cons_of_mem _ hc)
      · simp only [assocPut, if_neg hk] at h
        rcases List.mem_cons.mp h with hc | hc
        · exact Or.inl (hc ▸ List.mem_cons_self _ _)
        · rcases ih hc with hi | hi
          · exact Or.inl (List.mem_cons_of_mem _ hi)
          · exact Or.inr hi

theorem mem_assocDel {α : Type} (l : List (Nat × α)) (k : Nat) (p : Nat × α)
    (h : p ∈ assocDel l k) : p ∈ l := by
  induction l with
  | nil =>
      simp [assocDel] at h
  | cons q rest ih =>
      obtain ⟨k', v'⟩ := q
      by_cases hk : k' = k
      · simp only [assocDel, if_pos hk] at h
        exact List.mem_cons_of_mem _ h
      · simp only [assocDel, if_neg hk] at h
        rcases List.mem_cons.mp h with hc | hc
        · exact hc ▸ List.mem_cons_self _ _
        · exact List.mem_cons_of_mem _ (ih hc)

theorem restore_shapes_fully_readable (snap : Snapshot) :
    ∀ p ∈ restore_shapes snap, ∃ k, read_shape_kind p.2 = .ok (some k) := by
  unfold restore_shapes
  suffices hgen : ∀ acc : List (Nat × AmMap),
      (∀ p ∈ acc, ∃ k, read_shape_kind p.2 = .ok (some k)) →
      ∀ p ∈ snap.foldl (fun acc p => assocPut acc p.1 (write_shape_kind p.2)) acc,
        ∃ k, read_shape_kind p.2 = .ok (some k) by
    exact hgen [] (by simp)
  induction snap with
  | nil =>
      intro acc hacc
      simpa using hacc
  | cons q rest ih =>
      intro acc hacc
      simp only [List.foldl_cons]
      refine ih _ ?_
      intro p hp
      rcases mem_assocPut _ _ _ _ hp with hc | hc
      · exact hacc p hc
      · rw [hc]
        exact ⟨canonShape q.2, read_write_canon q.2⟩

theorem assocPut_keys {α : Type} (l : List (Nat × α)) (k : Nat) (v : α) :
    (assocPut l k v).map Prod.fst = l.map Prod.fst ∨
    (assocPut l k v).map Prod.fst = l.map Prod.fst ++ [k] := by
  induction l with
  | nil => exact Or.inr (by simp [assocPut])
  | cons q rest ih =>
      obtain ⟨k', v'⟩ := q
      by_cases hk : k' = k
      · subst hk
        exact Or.inl (by simp [assocPut])
      · rcases ih with hi | hi
        · exact Or.inl (by simp [assocPut, hk, hi])
        · exact Or.inr (by simp [assocPut, hk, hi])

theorem nodupKeys_assocPut {α : Type} (l : List (Nat × α)) (k : Nat) (v : α)
    (h : NodupKeys l) : NodupKeys (assocPut l k v) := by
  induction l with
  | nil => simp [assocPut, NodupKeys]
  | cons q rest ih =>
      obtain ⟨k', v'⟩ := q
      obtain ⟨h1, h2⟩ : k' ∉ rest.map Prod.fst ∧ NodupKeys rest := by
        simpa [NodupKeys] using h
      by_cases hk : k' = k
      · subst hk
        unfold NodupKeys at h ⊢
        simpa [assocPut] using h
      · have hh := ih h2
        unfold NodupKeys at hh ⊢
        simp only [assocPut, if_neg hk, List.map_cons, List.nodup_cons]
        refine ⟨?_, hh⟩
        rcases assocPut_keys rest k v with hkeys | hkeys
        · rw [hkeys]
          exact h1
        · rw [hkeys]
          intro hmem
          rcases List.mem_append.mp hmem with hc | hc
          · exact h1 hc
          · exact hk (by simpa using hc)

theorem assocDel_keys_sublist {α : Type} (l : List (Nat × α)) (k : Nat) :
    List.Sublist ((assocDel l k).map Prod.fst) (l.map Prod.fst) := by
  induction l with
  | nil => simp [assocDel]
  | cons q rest ih =>
      obtain ⟨k', v'⟩ := q
      by_cases hk : k' = k
      · simp only [assocDel, if_pos hk, List.map_cons]
        exact (List.Sublist.refl _).trans (List.sublist_cons_self _ _)
      · simp only [assocDel, if_neg hk, List.map_cons]
        exact List.Sublist.cons₂ _ ih

theorem nodupKeys_assocDel {α : Type} (l : List (Nat × α)) (k : Nat)
    (h : NodupKeys l) : NodupKeys (assocDel l k) :=
  (assocDel_keys_sublist l k).nodup h

/-- Document well-formedness: the shapes map decodes without error and has
distinct keys.  Every document the store API builds satisfies this. -/
def WFDoc (d : Document) : Prop := ReadableShapes d.shapes ∧ NodupKeys d.shapes

/-- A single shape mutation through the Document API, for the undo/redo
claim: add, whole-record update, or delete. -/
inductive Mut
| add (id : Nat) (k : ShapeKind)
| upd (id : Nat) (k : ShapeKind)
| del (id : Nat)

/-- Apply one mutation through the store API. -/
def apply_mut (d : Document) : Mut → Res Document
| .add id k => add_shape d id k
| .upd id k => update_shape d id k
| .del id => delete_shape d id

/-- One operation of the undo/redo claim: push_undo_checkpoint, then the
mutation. -/
def checkpointed_step (d : Document) (m : Mut) : Res Document := do
  let d1 ← push_undo_checkpoint d
  apply_mut d1 m

/-- A sequence of checkpoint-then-mutate operations. -/
def apply_ops : Document → List Mut → Res Document
| d, [] => .ok d
| d, m :: ms => do
    let d1 ← checkpointed_step d m
    apply_ops d1 ms

/-- Iterate global_undo n times (the returned flag is discarded, as the
caller does). -/
def undo_times : Document → Nat → Res Document
| d, 0 => .ok d
| d, n + 1 => do
    let r ← global_undo d
    undo_times r.1 n

theorem wf_shapes_assocPut_write (shapes : List (Nat × AmMap)) (id : Nat) (k : ShapeKind)
    (hr : ReadableShapes shapes) (hn : NodupKeys shapes) :
    ReadableShapes (assocPut shapes id (write_shape_kind k)) ∧
    NodupKeys (assocPut shapes id (write_shape_kind k)) := by
  constructor
  · intro p hp
    rcases mem_assocPut _ _ _ _ hp with hc | hc
    · exact hr p hc
    · rw [hc]
      exact ⟨some (canonShape k), read_write_canon k⟩
  · exact nodupKeys_assocPut _ _ _ hn

theorem wf_apply_mut (d : Document) (m : Mut) (d' : Document)
    (hwf : WFDoc d) (h : apply_mut d m = .ok d') : WFDoc d' := by
  obtain ⟨hr, hn⟩ := hwf
  cases m with
  | add id k =>
      injection h with h
      rw [← h]
      exact wf_shapes_assocPut_write d.shapes id k hr hn
  | upd id k =>
      injection h with h
      rw [← h]
      refine wf_shapes_assocPut_write _ id k ?_ ?_
      · intro p hp
        exact hr p (mem_assocDel _ _ _ hp)
      · exact nodupKeys_assocDel _ _ hn
  | del id =>
      injection h with h
      rw [← h]
      exact ⟨fun p hp => hr p (mem_assocDel _ _ _ hp), nodupKeys_assocDel _ _ hn⟩

theorem trim_undo_comp (A Y : List Snapshot) :
    trim_undo (trim_undo A ++ Y) = trim_undo (A ++ Y) := by
  unfold trim_undo
  rw [List.drop_append_eq_append_drop, List.drop_append_eq_append_drop,
    List.drop_drop]
  simp only [List.length_append, List.length_drop]
  congr 2 <;> omega

theorem push_undo_eq (d : Document) (snap : Snapshot)
    (hsnap : read_all_shapes d.shapes = .ok snap) :
    push_undo_checkpoint d = .ok { d with
      redo_stack := [],
      undo_stack := trim_undo (d.undo_stack ++ [snap]) } := by
  unfold push_undo_checkpoint serialize_shapes
  rw [hsnap]
  rfl

theorem global_undo_eq (d : Document) (slast cur : Snapshot)
    (hlast : d.undo_stack.getLast? = some slast)
    (hcur : read_all_shapes d.shapes = .ok cur) :
    global_undo d = .ok ({ d with
      shapes := restore_shapes slast,
      undo_stack := d.undo_stack.dropLast,
      redo_stack := d.redo_stack ++ [cur] }, true) := by
  unfold global_undo
  rw [hlast]
  simp only [serialize_shapes, hcur, Bind.bind, Except.bind]

theorem global_redo_eq (d : Document) (snext cur : Snapshot)
    (hnext : d.redo_stack.getLast? = some snext)
    (hcur : read_all_shapes d.shapes = .ok cur) :
    global_redo d = .ok ({ d with
      shapes := restore_shapes snext,
      redo_stack := d.redo_stack.dropLast,
      undo_stack := d.undo_stack ++ [cur] }, true) := by
  unfold global_redo
  rw [hnext]
  simp only [serialize_shapes, hcur, Bind.bind, Except.bind]

theorem apply_mut_stacks (d : Document) (m : Mut) (d' : Document)
    (h : apply_mut d m = .ok d') :
    d'.undo_stack = d.undo_stack ∧ d'.redo_stack = d.redo_stack := by
  cases m with
  | add id k =>
      injection h with h
      rw [← h]
      exact ⟨rfl, rfl⟩
  | upd id k =>
      injection h with h
      rw [← h]
      exact ⟨rfl, rfl⟩
  | del id =>
      injection h with h
      rw [← h]
      exact ⟨rfl, rfl⟩

theorem snapOK_of_read (shapes : List (Nat × AmMap)) (s : Snapshot)
    (hn : NodupKeys shapes) (h : read_all_shapes shapes = .ok s) : SnapOK s :=
  ⟨(read_all_shapes_keys_sublist shapes s h).nodup hn,
    read_all_shapes_canon shapes s h⟩

theorem apply_ops_stack : ∀ (ms : List Mut) (d d' : Document), WFDoc d →
    apply_ops d ms = .ok d' →
    WFDoc d' ∧
    ((ms = [] → d' = d) ∧
      (ms ≠ [] → ∃ S : List Snapshot,
        S.length = ms.length ∧
        d'.undo_stack = trim_undo (d.undo_stack ++ S) ∧
        (∀ s ∈ S, SnapOK s) ∧
        ∃ s1 S2, S = s1 :: S2 ∧ read_all_shapes d.shapes = .ok s1)) := by
  intro ms
  induction ms with
  | nil =>
      intro d d' hwf h
      injection h with h
      exact ⟨h ▸ hwf, fun _ => h.symm, fun hc => absurd rfl hc⟩
  | cons m ms ih =>
      intro d d' hwf h
      unfold apply_ops at h
      obtain ⟨d2, hstep, h⟩ := bind_ok h
      unfold checkpointed_step at hstep
      obtain ⟨d1, hpush, happly⟩ := bind_ok hstep
      obtain ⟨s1, hs1⟩ := read_all_shapes_ok d.shapes hwf.1
      rw [push_undo_eq d s1 hs1] at hpush
      injection hpush with hpush
      have hd1shapes : d1.shapes = d.shapes := by rw [← hpush]
      have hd1undo : d1.undo_stack = trim_undo (d.undo_stack ++ [s1]) := by rw [← hpush]
      have hwf1 : WFDoc d1 := by
        constructor
        · rw [hd1shapes]; exact hwf.1
        · rw [hd1shapes]; exact hwf.2
      have hwf2 : WFDoc d2 := wf_apply_mut d1 m d2 hwf1 happly
      obtain ⟨hu2, _⟩ := apply_mut_stacks d1 m d2 happly
      obtain ⟨hwf', hrest⟩ := ih d2 d' hwf2 h
      refine ⟨hwf', fun hc => absurd hc (by simp), fun _ => ?_⟩
      have hsnapOK : SnapOK s1 := snapOK_of_read d.shapes s1 hwf.2 hs1
      by_cases hms : ms = []
      · subst hms
        have hd' : d' = d2 := hrest.1 rfl
        refine ⟨[s1], by simp, ?_, ?_, s1, [], rfl, hs1⟩
        · rw [hd', hu2, hd1undo]
        · intro s hs
          rw [List.mem_singleton.mp hs]
          exact hsnapOK
      · obtain ⟨S', hlen', hstack', hok', s1', S2', hS', hrd'⟩ := hrest.2 hms
        refine ⟨s1 :: S', by simp [hlen'], ?_, ?_, s1, S', rfl, hs1⟩
        · rw [hstack', hu2, hd1undo, trim_undo_comp]
          simp
        · intro s hs
          rcases List.mem_cons.mp hs with hc | hc
          · rw [hc]; exact hsnapOK
          · exact hok' s hc

theorem undo_times_restore (S : List Snapshot) : ∀ (W : List Snapshot)
    (d : Document) (s1 : Snapshot) (S2 : List Snapshot),
    S = s1 :: S2 →
    (∀ s ∈ S, SnapOK s) →
    ReadableShapes d.shapes →
    d.undo_stack = W ++ S →
    ∃ d', undo_times d S.length = .ok d' ∧ read_all_shapes d'.shapes = .ok s1 := by
  induction S using List.reverseRecOn with
  | nil =>
      intro W d s1 S2 hS
      exact absurd hS (by simp)
  | append_singleton S' slast ih =>
      intro W d s1 S2 hS hok hread hstack
      have hlast : d.undo_stack.getLast? = some slast := by
        rw [hstack, ← List.append_assoc]
        exact List.getLast?_concat _
      obtain ⟨cur, hcur⟩ := read_all_shapes_ok d.shapes hread
      have hundo := global_undo_eq d slast cur hlast hcur
      have hsOK : SnapOK slast := hok slast (by simp)
      have hstep : ∀ n, undo_times d (n + 1) =
          undo_times { d with
            shapes := restore_shapes slast,
            undo_stack := d.undo_stack.dropLast,
            redo_stack := d.redo_stack ++ [cur] } n := by
        intro n
        have h1 : undo_times d (n + 1) =
            (global_undo d >>= fun r => undo_times r.1 n) := rfl
        rw [h1, hundo]
        rfl
      cases S' with
      | nil =>
          have h1 : [slast] = s1 :: S2 := by simpa using hS
          injection h1 with ha hb
          subst ha
          refine ⟨{ d with
              shapes := restore_shapes slast,
              undo_stack := d.undo_stack.dropLast,
              redo_stack := d.redo_stack ++ [cur] }, ?_, ?_⟩
          · rw [show (([] : List Snapshot) ++ [slast]).length = 0 + 1 from rfl, hstep 0]
            rfl
          · exact read_restore slast hsOK.1 hsOK.2
      | cons s1' S2' =>
          have hs1 : s1 = s1' := by
            have h1 : s1' :: (S2' ++ [slast]) = s1 :: S2 := by simpa using hS
            injection h1 with ha _
            exact ha.symm
          obtain ⟨d', hd', hread'⟩ := ih W
            { d with
              shapes := restore_shapes slast,
              undo_stack := d.undo_stack.dropLast,
              redo_stack := d.redo_stack ++ [cur] }
            s1' S2' rfl
            (fun s hs => hok s (List.mem_append_left _ hs))
            (fun p hp => by
              obtain ⟨k, hk⟩ := restore_shapes_fully_readable slast p hp
              exact ⟨some k, hk⟩)
            (by
              show d.undo_stack.dropLast = W ++ (s1' :: S2')
              rw [hstack, ← List.append_assoc, List.dropLast_concat])
          refine ⟨d', ?_, hs1 ▸ hread'⟩
          show undo_times d ((s1' :: S2') ++ [slast]).length = .ok d'
          have hlen : ((s1' :: S2') ++ [slast]).length = (s1' :: S2').length + 1 := by
            simp
          rw [hlen, hstep _]
          exact hd'

theorem not_mem_keys_of_assocGet_none {α : Type} (l : List (Nat × α)) (k : Nat)
    (h : assocGet l k = none) : k ∉ l.map Prod.fst := by
  induction l with
  | nil => simp
  | cons p rest ih =>
      obtain ⟨k', v'⟩ := p
      by_cases hk : k' = k
      · simp [assocGet, hk] at h
      · simp only [assocGet, if_neg hk] at h
        simp only [List.map_cons, List.mem_cons]
        push_neg
        exact ⟨fun hc => hk hc.symm, ih h⟩

theorem getLast?_drop_of_lt {α : Type} (l : List α) (k : Nat) (h : k < l.length) :
    (l.drop k).getLast? = l.getLast? := by
  induction l generalizing k with
  | nil => simp at h
  | cons a t ih =>
      cases k with
      | zero => rfl
      | succ n =>
          simp only [List.drop_succ_cons]
          rw [ih n (by simpa using h)]
          cases t with
          | nil => simp at h
          | cons b u => rw [List.getLast?_cons_cons]

/-- After one global_undo, one global_redo restores the current shape list
exactly: the undo pushes the current serialization onto the redo stack, and
the redo pops and restores it. -/
theorem undo_redo_restores (d : Document) (hwf : WFDoc d) (hne : d.undo_stack ≠ []) :
    ∃ du dr cur, read_all_shapes d.shapes = .ok cur ∧
      global_undo d = .ok (du, true) ∧
      global_redo du = .ok (dr, true) ∧
      read_all_shapes dr.shapes = .ok cur := by
  obtain ⟨cur, hcur⟩ := read_all_shapes_ok d.shapes hwf.1
  obtain ⟨slast, hlast⟩ : ∃ s, d.undo_stack.getLast? = some s := by
    cases hh : d.undo_stack.getLast? with
    | none => exact absurd (List.getLast?_eq_none_iff.mp hh) hne
    | some s => exact ⟨s, rfl⟩
  have hundo := global_undo_eq d slast cur hlast hcur
  obtain ⟨cur2, hcur2⟩ : ∃ s, read_all_shapes (restore_shapes slast) = .ok s := by
    refine read_all_shapes_ok _ ?_
    intro p hp
    obtain ⟨k, hk⟩ := restore_shapes_fully_readable slast p hp
    exact ⟨some k, hk⟩
  have hredo := global_redo_eq
    { d with
      shapes := restore_shapes slast,
      undo_stack := d.undo_stack.dropLast,
      redo_stack := d.redo_stack ++ [cur] }
    cur cur2 (List.getLast?_concat _) hcur2
  refine ⟨_, _, cur, hcur, hundo, hredo, ?_⟩
  have hcurOK : SnapOK cur := snapOK_of_read d.shapes cur hwf.2 hcur
  exact read_restore cur hcurOK.1 hcurOK.2

/-- C2: starting from any well-formed document, run N operations, each a
push_undo_checkpoint followed by a shape mutation, with N at most the
history bound; N global_undo calls then reproduce the original
read_all_shapes list exactly.  And on any well-formed document with a
pending undo entry, one global_undo followed by one global_redo reproduces
the pre-undo read_all_shapes list exactly. -/
theorem c2_undo_redo_spec :
    (∀ (d : Document) (ms : List Mut) (d' : Document), WFDoc d →
      ms.length ≤ MAX_UNDO_HISTORY → apply_ops d ms = .ok d' →
      ∃ d'', undo_times d' ms.length = .ok d'' ∧
        read_all_shapes d''.shapes = read_all_shapes d.shapes) ∧
    (∀ d : Document, WFDoc d → d.undo_stack ≠ [] →
      ∃ du dr cur, read_all_shapes d.shapes = .ok cur ∧
        global_undo d = .ok (du, true) ∧
        global_redo du = .ok (dr, true) ∧
        read_all_shapes dr.shapes = .ok cur) := by
  constructor
  · intro d ms d' hwf hlen happ
    obtain ⟨hwf', hnil, hcons⟩ := apply_ops_stack ms d d' hwf happ
    by_cases hms : ms = []
    · subst hms
      exact ⟨d', rfl, by rw [hnil rfl]⟩
    · obtain ⟨S, hlenS, hstack, hok, s1, S2, hSeq, hs1⟩ := hcons hms
      have hSle : S.length ≤ MAX_UNDO_HISTORY := hlenS ▸ hlen
      have hsplit : d'.undo_stack =
          (d.undo_stack.drop (d.undo_stack.length + S.length - MAX_UNDO_HISTORY)) ++ S := by
        rw [hstack]
        unfold trim_undo
        rw [List.drop_append_eq_append_drop]
        simp only [List.length_append]
        rw [show d.undo_stack.length + S.length - MAX_UNDO_HISTORY - d.undo_stack.length = 0
          from by omega, List.drop_zero]
      obtain ⟨d'', hdu, hread''⟩ :=
        undo_times_restore S _ d' s1 S2 hSeq hok hwf'.1 hsplit
      refine ⟨d'', ?_, ?_⟩
      · rw [← hlenS]
        exact hdu
      · rw [hread'', hs1]
  · exact undo_redo_restores

/-- Concrete document for the undo/redo witness: a fresh empty store. -/
def docC2 : Document := ⟨[], [], [], [], [], []⟩

/-- Concrete operation list for the undo/redo witness. -/
def mutsC2 : List Mut := [.add 1 (.Text ⟨0, 0⟩ [] .White)]

theorem c2_undo_redo_spec_witness :
    WFDoc docC2 ∧ mutsC2.length ≤ MAX_UNDO_HISTORY ∧
    ∃ d', apply_ops docC2 mutsC2 = .ok d' ∧
      ∃ d'', undo_times d' mutsC2.length = .ok d'' ∧
        read_all_shapes d''.shapes = read_all_shapes docC2.shapes := by
  have hwf : WFDoc docC2 := by
    constructor
    · intro p hp
      exact absurd hp (by simp [docC2])
    · simp [docC2, NodupKeys]
  refine ⟨hwf, by decide, _, rfl, ?_⟩
  exact c2_undo_redo_spec.1 docC2 mutsC2 _ hwf (by decide) rfl

/-- C4: push_undo_checkpoint appends the serialized snapshot of the current
shape set, leaves the redo stack empty, keeps at most MAX_UNDO_HISTORY undo
entries and drops the oldest (front) entries when the bound is exceeded. -/
theorem c4_push_undo_checkpoint (d : Document) (snap : Snapshot)
    (hsnap : read_all_shapes d.shapes = .ok snap) :
    ∃ d', push_undo_checkpoint d = .ok d' ∧
      d'.redo_stack = [] ∧
      d'.undo_stack =
        (d.undo_stack ++ [snap]).drop ((d.undo_stack ++ [snap]).length - MAX_UNDO_HISTORY) ∧
      d'.undo_stack.length ≤ MAX_UNDO_HISTORY ∧
      d'.undo_stack.getLast? = some snap := by
  refine ⟨_, push_undo_eq d snap hsnap, rfl, rfl, ?_, ?_⟩
  · show (trim_undo (d.undo_stack ++ [snap])).length ≤ MAX_UNDO_HISTORY
    unfold trim_undo
    simp only [List.length_drop, List.length_append, List.length_singleton]
    unfold MAX_UNDO_HISTORY
    omega
  · show (trim_undo (d.undo_stack ++ [snap])).getLast? = some snap
    unfold trim_undo
    rw [getLast?_drop_of_lt]
    · exact List.getLast?_concat _
    · simp only [List.length_append, List.length_singleton]
      unfold MAX_UNDO_HISTORY
      omega

theorem c4_push_undo_checkpoint_witness :
    read_all_shapes docC2.shapes = .ok [] ∧
    ∃ d', push_undo_checkpoint docC2 = .ok d' ∧
      d'.redo_stack = [] ∧
      d'.undo_stack =
        (docC2.undo_stack ++ [[]]).drop
          ((docC2.undo_stack ++ [[]]).length - MAX_UNDO_HISTORY) ∧
      d'.undo_stack.length ≤ MAX_UNDO_HISTORY ∧
      d'.undo_stack.getLast? = some [] :=
  ⟨rfl, c4_push_undo_checkpoint docC2 [] rfl⟩

/-- C5: delete_shape called when the record and its shape_order entry are
already gone succeeds as a no-op, leaving the shapes map and shape_order
unchanged. -/
theorem c5_delete_shape_idempotent (d : Document) (id : Nat)
    (hrec : assocGet d.shapes id = none) (hord : id ∉ d.shape_order) :
    delete_shape d id = .ok d := by
  unfold delete_shape
  rw [assocDel_of_not_mem _ _ (not_mem_keys_of_assocGet_none _ _ hrec),
    eraseLastOcc_of_not_mem _ _ hord]

theorem c5_delete_shape_idempotent_witness :
    assocGet docC2.shapes 7 = none ∧ 7 ∉ docC2.shape_order ∧
    delete_shape docC2 7 = .ok docC2 :=
  ⟨rfl, by decide, c5_delete_shape_idempotent docC2 7 rfl (by decide)⟩

/-- C1 (counterexample): a Rectangle whose label is the one-character string
holding a double quote does not survive a write/read pass: the stored label
is Displayed wrapped in quotes and trim_matches strips all of them, so the
label reads back empty. -/
theorem c1_counterexample :
    read_shape_kind (write_shape_kind
        (.Rectangle ⟨0, 0⟩ ⟨1, 1⟩ (some ['"']) .White)) =
      .ok (some (.Rectangle ⟨0, 0⟩ ⟨1, 1⟩ (some []) .White)) ∧
    (ShapeKind.Rectangle ⟨0, 0⟩ ⟨1, 1⟩ (some ([] : List Char)) .White) ≠
      (.Rectangle ⟨0, 0⟩ ⟨1, 1⟩ (some ['"']) .White) ∧
    read_shape_kind (write_shape_kind
        (.Rectangle ⟨0, 0⟩ ⟨1, 1⟩ (some ['"']) .White)) ≠
      .ok (some (.Rectangle ⟨0, 0⟩ ⟨1, 1⟩ (some ['"']) .White)) := by
  refine ⟨rfl, by decide, ?_⟩
  intro h
  have h2 : read_shape_kind (write_shape_kind
      (.Rectangle ⟨0, 0⟩ ⟨1, 1⟩ (some ['"']) .White)) =
      .ok (some (.Rectangle ⟨0, 0⟩ ⟨1, 1⟩ (some []) .White)) := rfl
  rw [h2] at h
  injection h with h
  injection h with h
  exact absurd h (by decide)

/-- C1 (amended): a write/read pass reproduces the shape exactly whenever
the shape is fixed by the storage canonicalization, i.e. its strings carry
no leading or trailing double-quote characters, a freehand char is not a
double quote, coordinates are in i32 range and connection ids in u64
range (the latter two automatic for the Rust types). -/
theorem c1_round_trip (k : ShapeKind) (h : canonShape k = k) :
    read_shape_kind (write_shape_kind k) = .ok (some k) := by
  rw [read_write_canon k, h]

/-- Concrete shape for the round-trip witness. -/
def kC1 : ShapeKind :=
  .Line ⟨1, 2⟩ ⟨3, 4⟩ .OrthogonalHV (some 5) (some 6) (some ['h', 'i']) .Red

theorem c1_round_trip_witness :
    canonShape kC1 = kC1 ∧
    read_shape_kind (write_shape_kind kC1) = .ok (some kC1) := by
  have hc : canonShape kC1 = kC1 := by decide
  exact ⟨hc, c1_round_trip kC1 hc⟩

/-- C6: on a three-shape document, bring_to_front on the middle shape and
then send_to_back on it leaves it at index 0 (the bottom), not back at its
original middle position: both operations are absolute moves. -/
theorem c6_zorder_absolute (d : Document) (b m t : Nat)
    (horder : d.shape_order = [b, m, t]) (hbm : b ≠ m) (htm : t ≠ m) :
    ∃ d1 d2, bring_to_front d [m] = .ok d1 ∧ send_to_back d1 [m] = .ok d2 ∧
      d2.shape_order = [m, b, t] ∧ d2.shape_order.head? = some m := by
  refine ⟨_, _, rfl, rfl, ?_, ?_⟩ <;>
    simp [bring_to_front, send_to_back, set_shape_order, horder, hbm, htm,
      List.filter, List.contains]

/-- Concrete three-shape order for the z-order witness. -/
def docC6 : Document := ⟨[], [0, 1, 2], [], [], [], []⟩

theorem c6_zorder_absolute_witness :
    docC6.shape_order = [0, 1, 2] ∧ (0 : Nat) ≠ 1 ∧ (2 : Nat) ≠ 1 ∧
    ∃ d1 d2, bring_to_front docC6 [1] = .ok d1 ∧ send_to_back d1 [1] = .ok d2 ∧
      d2.shape_order = [1, 0, 2] ∧ d2.shape_order.head? = some 1 :=
  ⟨rfl, by decide, by decide,
    c6_zorder_absolute docC6 0 1 2 rfl (by decide) (by decide)⟩

theorem amGet_put_self (m : AmMap) (k : String) (v : AmEntry) :
    amGet (amPut m k v) k = some v := by
  induction m with
  | nil => simp [amPut, amGet]
  | cons p rest ih =>
      obtain ⟨k', v'⟩ := p
      by_cases hk : k' = k
      · simp [amPut, amGet, hk]
      · simp [amPut, amGet, hk, ih]

theorem assocGet_some_mem {α : Type} (l : List (Nat × α)) (k : Nat) (v : α)
    (h : assocGet l k = some v) : (k, v) ∈ l := by
  induction l with
  | nil => simp [assocGet] at h
  | cons p rest ih =>
      obtain ⟨k', v'⟩ := p
      by_cases hk : k' = k
      · subst hk
        simp only [assocGet, if_pos rfl] at h
        injection h with h
        rw [h]
        exact List.mem_cons_self _ _
      · simp only [assocGet, if_neg hk] at h
        exact List.mem_cons_of_mem _ (ih h)

theorem mem_eraseLastOcc_of_ne (l : List Nat) (x y : Nat) (hne : x ≠ y)
    (hmem : x ∈ l) : x ∈ eraseLastOcc l y := by
  unfold eraseLastOcc
  rw [List.mem_reverse]
  exact (List.mem_erase_of_ne hne).mpr (List.mem_reverse.mpr hmem)

theorem get_shape_layer_some_mem (d : Document) (sid x : Nat)
    (h : get_shape_layer d sid = .ok (some x)) :
    ∃ m, assocGet d.shapes sid = some m := by
  unfold get_shape_layer at h
  split at h
  · next m heq => exact ⟨m, heq⟩
  · simp at h

theorem set_shape_layer_isOk (d : Document) (id lid : Nat) :
    ∃ d1, set_shape_layer d id lid = .ok d1 := by
  unfold set_shape_layer
  split
  · exact ⟨_, rfl⟩
  · exact ⟨_, rfl⟩

theorem set_shape_layer_fields (d : Document) (id lid : Nat) (d1 : Document)
    (h : set_shape_layer d id lid = .ok d1) :
    d1.layer_order = d.layer_order ∧ d1.layers = d.layers := by
  unfold set_shape_layer at h
  split at h <;> (injection h with h; rw [← h]; exact ⟨rfl, rfl⟩)

theorem get_shape_layer_after_set_self (d : Document) (id lid : Nat) (d1 : Document)
    (m : AmMap) (hm : assocGet d.shapes id = some m)
    (h : set_shape_layer d id lid = .ok d1) :
    get_shape_layer d1 id = .ok (some lid) := by
  unfold set_shape_layer at h
  rw [hm] at h
  injection h with h
  have h1 : assocGet d1.shapes id = some (amPut m "layer_id" (.scalar (.idStr lid))) := by
    rw [← h]
    exact assocGet_put_self _ _ _
  unfold get_shape_layer
  rw [h1]
  simp only []
  rw [amGet_put_self]

theorem get_shape_layer_after_set_ne (d : Document) (id lid sid : Nat) (d1 : Document)
    (hne : id ≠ sid) (h : set_shape_layer d id lid = .ok d1) :
    get_shape_layer d1 sid = get_shape_layer d sid := by
  unfold set_shape_layer at h
  split at h
  · injection h with h
    have h1 : assocGet d1.shapes sid = assocGet d.shapes sid := by
      rw [← h]
      exact assocGet_put_ne _ _ _ _ hne
    unfold get_shape_layer
    rw [h1]
  · injection h with h
    rw [← h]

theorem delete_layer_moves_spec : ∀ (all : List (Nat × ShapeKind)) (d : Document)
    (deleted dst : Nat), (all.map Prod.fst).Nodup →
    ∃ d1, delete_layer_moves d all deleted dst = .ok d1 ∧
      d1.layer_order = d.layer_order ∧ d1.layers = d.layers ∧
      (∀ sid, sid ∉ all.map Prod.fst → get_shape_layer d1 sid = get_shape_layer d sid) ∧
      (∀ sid, sid ∈ all.map Prod.fst → get_shape_layer d sid = .ok (some deleted) →
        get_shape_layer d1 sid = .ok (some dst)) := by
  intro all
  induction all with
  | nil =>
      intro d deleted dst hnd
      exact ⟨d, rfl, rfl, rfl, fun _ _ => rfl, fun sid hm => absurd hm (by simp)⟩
  | cons p rest ih =>
      intro d deleted dst hnd
      obtain ⟨sid0, k0⟩ := p
      obtain ⟨hnotin, hnd'⟩ : sid0 ∉ rest.map Prod.fst ∧ (rest.map Prod.fst).Nodup := by
        simpa using hnd
      cases hg : get_shape_layer d sid0 with
      | error e =>
          have hstep : delete_layer_moves d ((sid0, k0) :: rest) deleted dst =
              delete_layer_moves d rest deleted dst := by
            conv_lhs => unfold delete_layer_moves
            rw [hg]
          obtain ⟨d1, hmv, hlo, hly, hne, hinn⟩ := ih d deleted dst hnd'
          refine ⟨d1, hstep ▸ hmv, hlo, hly, ?_, ?_⟩
          · intro sid hsid
            exact hne sid (fun hc => hsid (by simp [hc]))
          · intro sid hsid hlayer
            rcases (by simpa using hsid : sid = sid0 ∨ ∃ x, (sid, x) ∈ rest) with hc | ⟨xk, hc⟩
            · rw [hc] at hlayer
              rw [hlayer] at hg
              exact absurd hg (by simp)
            · exact hinn sid (List.mem_map_of_mem Prod.fst hc) hlayer
      | ok o =>
          cases o with
          | none =>
              have hstep : delete_layer_moves d ((sid0, k0) :: rest) deleted dst =
                  delete_layer_moves d rest deleted dst := by
                conv_lhs => unfold delete_layer_moves
                rw [hg]
              obtain ⟨d1, hmv, hlo, hly, hne, hinn⟩ := ih d deleted dst hnd'
              refine ⟨d1, hstep ▸ hmv, hlo, hly, ?_, ?_⟩
              · intro sid hsid
                exact hne sid (fun hc => hsid (by simp [hc]))
              · intro sid hsid hlayer
                rcases (by simpa using hsid : sid = sid0 ∨ ∃ x, (sid, x) ∈ rest) with hc | ⟨xk, hc⟩
                · rw [hc] at hlayer
                  rw [hlayer] at hg
                  injection hg with hg
                  exact absurd hg (by simp)
                · exact hinn sid (List.mem_map_of_mem Prod.fst hc) hlayer
          | some l =>
              by_cases hl : l = deleted
              · rw [hl] at hg
                obtain ⟨dset, hset⟩ := set_shape_layer_isOk d sid0 dst
                have hstep : delete_layer_moves d ((sid0, k0) :: rest) deleted dst =
                    delete_layer_moves dset rest deleted dst := by
                  conv_lhs => unfold delete_layer_moves
                  rw [hg]
                  simp only []
                  rw [if_pos trivial, hset]
                  rfl
                obtain ⟨hsetlo, hsetly⟩ := set_shape_layer_fields d sid0 dst dset hset
                obtain ⟨d1, hmv, hlo, hly, hne, hinn⟩ := ih dset deleted dst hnd'
                obtain ⟨m0, hm0⟩ := get_shape_layer_some_mem d sid0 deleted hg
                have hself : get_shape_layer dset sid0 = .ok (some dst) :=
                  get_shape_layer_after_set_self d sid0 dst dset m0 hm0 hset
                refine ⟨d1, hstep ▸ hmv, hlo.trans hsetlo, hly.trans hsetly, ?_, ?_⟩
                · intro sid hsid
                  have hs0 : sid ≠ sid0 := fun hc => hsid (by simp [hc])
                  have hs1 : sid ∉ rest.map Prod.fst := fun hc => hsid (by simp [hc])
                  rw [hne sid hs1]
                  exact get_shape_layer_after_set_ne d sid0 dst sid dset
                    (fun hc => hs0 hc.symm) hset
                · intro sid hsid hlayer
                  rcases (by simpa using hsid : sid = sid0 ∨ ∃ x, (sid, x) ∈ rest) with hc | ⟨xk, hc⟩
                  · rw [hc]
                    rw [hne sid0 hnotin]
                    exact hself
                  · have hcm : sid ∈ rest.map Prod.fst := List.mem_map_of_mem Prod.fst hc
                    refine hinn sid hcm ?_
                    rw [get_shape_layer_after_set_ne d sid0 dst sid dset
                      (fun hcc => hnotin (hcc ▸ hcm)) hset]
                    exact hlayer
              · have hstep : delete_layer_moves d ((sid0, k0) :: rest) deleted dst =
                    delete_layer_moves d rest deleted dst := by
                  conv_lhs => unfold delete_layer_moves
                  rw [hg]
                  simp only []
                  rw [if_neg hl]
                obtain ⟨d1, hmv, hlo, hly, hne, hinn⟩ := ih d deleted dst hnd'
                refine ⟨d1, hstep ▸ hmv, hlo, hly, ?_, ?_⟩
                · intro sid hsid
                  exact hne sid (fun hc => hsid (by simp [hc]))
                · intro sid hsid hlayer
                  rcases (by simpa using hsid : sid = sid0 ∨ ∃ x, (sid, x) ∈ rest) with hc | ⟨xk, hc⟩
                  · rw [hc] at hlayer
                    rw [hlayer] at hg
                    injection hg with hg
                    injection hg with hg
                    exact absurd hg.symm hl
                  · exact hinn sid (List.mem_map_of_mem Prod.fst hc) hlayer

/-- The final record update of delete_layer: remove the layer record and its
order entry. -/
def delete_layer_finish (d3 : Document) (id : Nat) : Document :=
  { d3 with layers := assocDel d3.layers id, layer_order := eraseLastOcc d3.layer_order id }

/-- C3: deleting a layer when at least two exist succeeds and reassigns every
shape that referenced it to a surviving layer; deleting the sole remaining
layer is rejected with an error and, the function being pure on Res, leaves
the document untouched. -/
theorem c3_delete_layer :
    (∀ (d : Document) (id : Nat) (all : List (Nat × ShapeKind)),
      2 ≤ d.layer_order.length → d.layer_order.Nodup → NodupKeys d.shapes →
      read_all_shapes d.shapes = .ok all →
      ∃ d2 dl, delete_layer d id = .ok d2 ∧
        d2.layer_order = eraseLastOcc d.layer_order id ∧
        dl ∈ d2.layer_order ∧ dl ≠ id ∧
        (∀ sid, sid ∈ all.map Prod.fst →
          get_shape_layer d sid = .ok (some id) →
          get_shape_layer d2 sid = .ok (some dl))) ∧
    (∀ (d : Document) (id : Nat), d.layer_order.length = 1 →
      delete_layer d id = .error "Cannot delete the last layer") := by
  constructor
  · intro d id all hlen hnd hnds hread
    obtain ⟨x, y, t, horder⟩ : ∃ x y t, d.layer_order = x :: y :: t := by
      match hc : d.layer_order with
      | [] => rw [hc] at hlen; simp at hlen
      | [x] => rw [hc] at hlen; simp at hlen
      | x :: y :: t => exact ⟨x, y, t, rfl⟩
    obtain ⟨dl, hfind⟩ : ∃ dl,
        d.layer_order.find? (fun lid => lid != id) = some dl := by
      by_cases hx : x = id
      · have hxy : x ≠ y := by
          have h1 := horder ▸ hnd
          have h2 := (List.nodup_cons.mp h1).1
          intro hc
          exact h2 (by simp [hc])
        refine ⟨y, ?_⟩
        rw [horder, List.find?_cons_of_neg _ (by simp [hx]),
          List.find?_cons_of_pos _ (by simp [hx ▸ hxy.symm])]
      · exact ⟨x, by rw [horder, List.find?_cons_of_pos _ (by simp [hx])]⟩
    have hdlne : dl ≠ id := by simpa using List.find?_some hfind
    have hdlmem : dl ∈ d.layer_order := List.mem_of_find?_eq_some hfind
    have hallnd : (all.map Prod.fst).Nodup :=
      List.Nodup.sublist (read_all_shapes_keys_sublist d.shapes all hread) hnds
    obtain ⟨d1, hmv, hlo, hly, hne0, hinn⟩ := delete_layer_moves_spec all d id dl hallnd
    have hgt : ¬ d.layer_order.length ≤ 1 := by omega
    have h2 : delete_layer d id = (do
        let all2 ← read_all_shapes d.shapes
        let d3 ← delete_layer_moves d all2 id dl
        Except.ok (delete_layer_finish d3 id)) := by
      unfold delete_layer
      rw [if_neg hgt, hfind]
      rfl
    have h3 : delete_layer d id = (do
        let d3 ← delete_layer_moves d all id dl
        Except.ok (delete_layer_finish d3 id)) := by
      rw [h2, hread]
      rfl
    have hres : delete_layer d id = .ok (delete_layer_finish d1 id) := by
      rw [h3, hmv]
      rfl
    refine ⟨_, dl, hres, ?_, ?_, hdlne, ?_⟩
    · show eraseLastOcc d1.layer_order id = eraseLastOcc d.layer_order id
      rw [hlo]
    · show dl ∈ eraseLastOcc d1.layer_order id
      rw [hlo]
      exact mem_eraseLastOcc_of_ne _ dl id hdlne hdlmem
    · intro sid hsid hlayer
      have hsame : get_shape_layer (delete_layer_finish d1 id) sid =
          get_shape_layer d1 sid := rfl
      rw [hsame]
      exact hinn sid hsid hlayer
  · intro d id hlen
    unfold delete_layer
    rw [if_pos (by omega)]

def kC3 : ShapeKind :=
  .Line ⟨1, 2⟩ ⟨3, 4⟩ .OrthogonalHV none none none .Red

def docC3 : Document :=
  ⟨[(1, amPut (write_shape_kind kC3) "layer_id" (.scalar (.idStr 20)))], [1],
    [(10, ⟨['a'], true, false⟩), (20, ⟨['b'], true, false⟩)], [10, 20], [], []⟩

def docC3one : Document := ⟨[], [], [(10, ⟨['a'], true, false⟩)], [10], [], []⟩

theorem c3_delete_layer_witness :
    (2 ≤ docC3.layer_order.length ∧ docC3.layer_order.Nodup ∧
      NodupKeys docC3.shapes ∧
      read_all_shapes docC3.shapes = .ok [(1, kC3)] ∧
      ∃ d2 dl, delete_layer docC3 20 = .ok d2 ∧
        d2.layer_order = eraseLastOcc docC3.layer_order 20 ∧
        dl ∈ d2.layer_order ∧ dl ≠ 20 ∧
        (∀ sid, sid ∈ ([(1, kC3)].map Prod.fst) →
          get_shape_layer docC3 sid = .ok (some 20) →
          get_shape_layer d2 sid = .ok (some dl))) ∧
    (docC3one.layer_order.length = 1 ∧
      delete_layer docC3one 10 = .error "Cannot delete the last layer") := by
  have hread : read_all_shapes docC3.shapes = .ok [(1, kC3)] := by rfl
  exact ⟨⟨by decide, by decide, by unfold NodupKeys; decide, hread,
      c3_delete_layer.1 docC3 20 [(1, kC3)] (by decide) (by decide)
        (by unfold NodupKeys; decide) hread⟩,
    rfl, c3_delete_layer.2 docC3one 10 rfl⟩


/-- The rectangle-perimeter snap points shared by the Rectangle/DoubleBox arm
and the Parallelogram/Trapezoid/RoundedRect/Cylinder/Cloud arm of
src/shapes.rs ShapeKind::snap_points: corners plus edge midpoints (i32
division truncates toward zero, Int.div). -/
def rect_snaps (s e : Position) : List Position :=
  let min_x := min s.x e.x
  let max_x := max s.x e.x
  let min_y := min s.y e.y
  let max_y := max s.y e.y
  let mid_x := Int.tdiv (min_x + max_x) 2
  let mid_y := Int.tdiv (min_y + max_y) 2
  [⟨min_x, min_y⟩, ⟨max_x, min_y⟩, ⟨min_x, max_y⟩, ⟨max_x, max_y⟩,
    ⟨mid_x, min_y⟩, ⟨mid_x, max_y⟩, ⟨min_x, mid_y⟩, ⟨max_x, mid_y⟩]

/-- src/shapes.rs ShapeKind::snap_points. -/
def ShapeKind.snap_points : ShapeKind → List Position
  | .Rectangle s e _ _ => rect_snaps s e
  | .DoubleBox s e _ _ => rect_snaps s e
  | .Line s e _ _ _ _ _ => [s, e]
  | .Arrow s e _ _ _ _ _ => [s, e]
  | .Diamond c hw hh _ _ =>
      [⟨c.x, c.y - hh⟩, ⟨c.x, c.y + hh⟩, ⟨c.x - hw, c.y⟩, ⟨c.x + hw, c.y⟩]
  | .Ellipse c rx ry _ _ =>
      [⟨c.x, c.y - ry⟩, ⟨c.x, c.y + ry⟩, ⟨c.x - rx, c.y⟩, ⟨c.x + rx, c.y⟩]
  | .Text p content _ => [p, ⟨p.x + (content.length : Int) - 1, p.y⟩]
  | .Freehand pts _ _ _ =>
      (match pts.head? with | some f => [f] | none => []) ++
      (match pts.getLast? with
        | some l => if pts.length > 1 then [l] else []
        | none => [])
  | .Triangle p1 p2 p3 _ _ => [p1, p2, p3]
  | .Parallelogram s e _ _ => rect_snaps s e
  | .Hexagon c rx ry _ _ =>
      [⟨c.x, c.y - ry⟩, ⟨c.x, c.y + ry⟩, ⟨c.x - rx, c.y⟩, ⟨c.x + rx, c.y⟩]
  | .Trapezoid s e _ _ => rect_snaps s e
  | .RoundedRect s e _ _ => rect_snaps s e
  | .Cylinder s e _ _ => rect_snaps s e
  | .Cloud s e _ _ => rect_snaps s e
  | .Star c ro _ _ _ =>
      [⟨c.x, c.y - ro⟩, ⟨c.x, c.y + ro⟩, ⟨c.x - ro, c.y⟩, ⟨c.x + ro, c.y⟩]

/-- Manhattan distance used by find_corresponding_snap:
(pos.x - old_snap.x).abs() + (pos.y - old_snap.y).abs(). -/
def manhattan (p q : Position) : Int := |p.x - q.x| + |p.y - q.y|

/-- i32::MAX, the initial best distance of find_corresponding_snap. -/
def I32_MAX : Int := 2 ^ 31 - 1

/-- The scanning loop of src/document.rs find_corresponding_snap: keep the
index of the strictly best (smallest) distance seen so far. -/
def find_best_aux : List Position → Position → Nat → Option Nat → Int → Option Nat
  | [], _, _, best_idx, _ => best_idx
  | o :: rest, pos, idx, best_idx, best_dist =>
      let dist := manhattan pos o
      if dist < best_dist then find_best_aux rest pos (idx + 1) (some idx) dist
      else find_best_aux rest pos (idx + 1) best_idx best_dist

/-- src/document.rs find_corresponding_snap: the new snap point at the index
of the closest old snap point, if any. -/
def find_corresponding_snap (pos : Position) (old_snaps new_snaps : List Position) :
    Option Position :=
  (find_best_aux old_snaps pos 0 none I32_MAX).bind (fun idx => new_snaps.get? idx)

/-- One endpoint of the per-shape update in update_connections_for_resize:
if the endpoint is connected to the resized shape and a corresponding snap is
found, move it there and mark the shape changed. -/
def endpoint_upd (rcid : Nat) (conn : Option Nat) (p : Position)
    (old_snaps new_snaps : List Position) : Position × Bool :=
  if conn = some rcid then
    match find_corresponding_snap p old_snaps new_snaps with
    | some q => (q, true)
    | none => (p, false)
  else (p, false)

/-- The per-shape body of the update_connections_for_resize loop: Line and
Arrow shapes get both endpoints updated and are rewritten when changed;
every other kind is left alone (none). -/
def uc_shape_upd (rcid : Nat) (old_snaps new_snaps : List Position) :
    ShapeKind → Option ShapeKind
  | .Line s e sty sc ec lab col =>
      let r1 := endpoint_upd rcid sc s old_snaps new_snaps
      let r2 := endpoint_upd rcid ec e old_snaps new_snaps
      if r1.2 || r2.2 then some (.Line r1.1 r2.1 sty sc ec lab col) else none
  | .Arrow s e sty sc ec lab col =>
      let r1 := endpoint_upd rcid sc s old_snaps new_snaps
      let r2 := endpoint_upd rcid ec e old_snaps new_snaps
      if r1.2 || r2.2 then some (.Arrow r1.1 r2.1 sty sc ec lab col) else none
  | _ => none

/-- The loop of update_connections_for_resize over the snapshot taken before
the updates: rewrite each changed Line/Arrow through update_shape and record
its id. -/
def uc_step (rcid : Nat) (old_snaps new_snaps : List Position) (d : Document)
    (upd : List Nat) : List (Nat × ShapeKind) → Res (Document × List Nat)
  | [] => .ok (d, upd)
  | (id, k) :: rest =>
      match uc_shape_upd rcid old_snaps new_snaps k with
      | some k2 => do
          let d2 ← update_shape d id k2
          uc_step rcid old_snaps new_snaps d2 (upd ++ [id]) rest
      | none => uc_step rcid old_snaps new_snaps d upd rest

/-- src/document.rs Document::update_connections_for_resize: if the snap
point counts differ, return Ok with no update; otherwise walk the snapshot
updating connected Line/Arrow endpoints.  resized_id.0.as_u128() as u64 is
the truncation resized_id % 2^64. -/
def update_connections_for_resize (d : Document) (resized_id : Nat)
    (old_kind new_kind : ShapeKind) : Res (Document × List Nat) :=
  let old_snaps := old_kind.snap_points
  let new_snaps := new_kind.snap_points
  if old_snaps.length ≠ new_snaps.length then .ok (d, [])
  else do
    let all ← read_all_shapes d.shapes
    uc_step (resized_id % 2 ^ 64) old_snaps new_snaps d [] all


theorem find_best_aux_spec : ∀ (l : List Position) (pos : Position) (idx : Nat)
    (bi : Option Nat) (bd : Int),
    (find_best_aux l pos idx bi bd = bi ∧ ∀ p ∈ l, bd ≤ manhattan pos p) ∨
    (∃ j q, l.get? j = some q ∧
      find_best_aux l pos idx bi bd = some (idx + j) ∧
      manhattan pos q < bd ∧
      (∀ j2 q2, l.get? j2 = some q2 → manhattan pos q ≤ manhattan pos q2) ∧
      (∀ j2 q2, j2 < j → l.get? j2 = some q2 → manhattan pos q < manhattan pos q2)) := by
  intro l
  induction l with
  | nil =>
      intro pos idx bi bd
      left
      exact ⟨rfl, by simp⟩
  | cons o rest ih =>
      intro pos idx bi bd
      by_cases h0 : manhattan pos o < bd
      · have hstep : find_best_aux (o :: rest) pos idx bi bd =
            find_best_aux rest pos (idx + 1) (some idx) (manhattan pos o) := by
          conv_lhs => unfold find_best_aux
          rw [if_pos h0]
        rcases ih pos (idx + 1) (some idx) (manhattan pos o) with
          ⟨heq, hall⟩ | ⟨j, q, hget, heq, hlt, hmin, hstrict⟩
        · right
          refine ⟨0, o, rfl, ?_, h0, ?_, ?_⟩
          · rw [hstep, heq, Nat.add_zero]
          · intro j2 q2 hg2
            cases j2 with
            | zero =>
                rw [List.get?_cons_zero] at hg2
                injection hg2 with hg2
                rw [← hg2]
            | succ k =>
                rw [List.get?_cons_succ] at hg2
                exact hall q2 (List.get?_mem hg2)
          · intro j2 q2 hj2 _
            exact absurd hj2 (Nat.not_lt_zero j2)
        · right
          have hidx : idx + 1 + j = idx + (j + 1) := by omega
          refine ⟨j + 1, q, by rw [List.get?_cons_succ]; exact hget, ?_,
            lt_trans hlt h0, ?_, ?_⟩
          · rw [hstep, heq, hidx]
          · intro j2 q2 hg2
            cases j2 with
            | zero =>
                rw [List.get?_cons_zero] at hg2
                injection hg2 with hg2
                rw [← hg2]
                exact le_of_lt hlt
            | succ k =>
                rw [List.get?_cons_succ] at hg2
                exact hmin k q2 hg2
          · intro j2 q2 hj2 hg2
            cases j2 with
            | zero =>
                rw [List.get?_cons_zero] at hg2
                injection hg2 with hg2
                rw [← hg2]
                exact hlt
            | succ k =>
                rw [List.get?_cons_succ] at hg2
                exact hstrict k q2 (Nat.lt_of_succ_lt_succ hj2) hg2
      · have hstep : find_best_aux (o :: rest) pos idx bi bd =
            find_best_aux rest pos (idx + 1) bi bd := by
          conv_lhs => unfold find_best_aux
          rw [if_neg h0]
        rcases ih pos (idx + 1) bi bd with
          ⟨heq, hall⟩ | ⟨j, q, hget, heq, hlt, hmin, hstrict⟩
        · left
          refine ⟨hstep.trans heq, ?_⟩
          intro p hp
          rcases List.mem_cons.mp hp with hp | hp
          · rw [hp]
            exact not_lt.mp h0
          · exact hall p hp
        · right
          have hidx : idx + 1 + j = idx + (j + 1) := by omega
          have hqo : manhattan pos q < manhattan pos o :=
            lt_of_lt_of_le hlt (not_lt.mp h0)
          refine ⟨j + 1, q, by rw [List.get?_cons_succ]; exact hget, ?_,
            hlt, ?_, ?_⟩
          · rw [hstep, heq, hidx]
          · intro j2 q2 hg2
            cases j2 with
            | zero =>
                rw [List.get?_cons_zero] at hg2
                injection hg2 with hg2
                rw [← hg2]
                exact le_of_lt hqo
            | succ k =>
                rw [List.get?_cons_succ] at hg2
                exact hmin k q2 hg2
          · intro j2 q2 hj2 hg2
            cases j2 with
            | zero =>
                rw [List.get?_cons_zero] at hg2
                injection hg2 with hg2
                rw [← hg2]
                exact hqo
            | succ k =>
                rw [List.get?_cons_succ] at hg2
                exact hstrict k q2 (Nat.lt_of_succ_lt_succ hj2) hg2


theorem find_corresponding_snap_spec (pos : Position) (old nw : List Position)
    (hne : old ≠ []) (hdist : ∀ p ∈ old, manhattan pos p < I32_MAX) :
    ∃ j q, old.get? j = some q ∧
      (∀ j2 q2, old.get? j2 = some q2 → manhattan pos q ≤ manhattan pos q2) ∧
      (∀ j2 q2, j2 < j → old.get? j2 = some q2 → manhattan pos q < manhattan pos q2) ∧
      find_corresponding_snap pos old nw = nw.get? j := by
  rcases find_best_aux_spec old pos 0 none I32_MAX with
    ⟨heq, hall⟩ | ⟨j, q, hget, heq, hlt, hmin, hstrict⟩
  · obtain ⟨p0, hp0⟩ : ∃ p0, p0 ∈ old := by
      cases old with
      | nil => exact absurd rfl hne
      | cons a t => exact ⟨a, by simp⟩
    exact absurd (hall p0 hp0) (not_le.mpr (hdist p0 hp0))
  · refine ⟨j, q, hget, hmin, hstrict, ?_⟩
    unfold find_corresponding_snap
    rw [heq]
    simp

theorem endpoint_upd_connected (rcid : Nat) (pos : Position) (old nw : List Position)
    (hne : old ≠ []) (hlen : old.length = nw.length)
    (hdist : ∀ p ∈ old, manhattan pos p < I32_MAX) :
    ∃ ns j q, endpoint_upd rcid (some rcid) pos old nw = (ns, true) ∧
      old.get? j = some q ∧
      (∀ j2 q2, old.get? j2 = some q2 → manhattan pos q ≤ manhattan pos q2) ∧
      (∀ j2 q2, j2 < j → old.get? j2 = some q2 → manhattan pos q < manhattan pos q2) ∧
      nw.get? j = some ns := by
  obtain ⟨j, q, hget, hmin, hstrict, hfind⟩ := find_corresponding_snap_spec pos old nw hne hdist
  obtain ⟨hjlen, -⟩ := List.get?_eq_some.mp hget
  have hj : j < nw.length := hlen ▸ hjlen
  refine ⟨nw.get ⟨j, hj⟩, j, q, ?_, hget, hmin, hstrict, List.get?_eq_get hj⟩
  unfold endpoint_upd
  rw [if_pos rfl, hfind, List.get?_eq_get hj]

theorem assocGet_update_ne {α : Type} (l : List (Nat × α)) (k j : Nat) (v : α)
    (h : k ≠ j) : assocGet (assocPut (assocDel l k) k v) j = assocGet l j := by
  rw [assocGet_put_ne _ _ _ _ h]
  exact assocGet_del_ne _ _ _ h

theorem uc_step_spec : ∀ (all : List (Nat × ShapeKind)) (d : Document) (rcid : Nat)
    (old nw : List Position) (upd : List Nat), (all.map Prod.fst).Nodup →
    ∃ d1 u1, uc_step rcid old nw d upd all = .ok (d1, u1) ∧
      (∀ sid, sid ∉ all.map Prod.fst → assocGet d1.shapes sid = assocGet d.shapes sid) ∧
      (∀ id k, (id, k) ∈ all → ∀ k2, uc_shape_upd rcid old nw k = some k2 →
        assocGet d1.shapes id = some (write_shape_kind k2)) ∧
      (∀ id k, (id, k) ∈ all → uc_shape_upd rcid old nw k = none →
        assocGet d1.shapes id = assocGet d.shapes id) := by
  intro all
  induction all with
  | nil =>
      intro d rcid old nw upd hnd
      exact ⟨d, upd, rfl, fun _ _ => rfl,
        fun id k hm => absurd hm (by simp), fun id k hm => absurd hm (by simp)⟩
  | cons p rest ih =>
      intro d rcid old nw upd hnd
      obtain ⟨id0, k0⟩ := p
      obtain ⟨hnotin, hnd2⟩ : id0 ∉ rest.map Prod.fst ∧ (rest.map Prod.fst).Nodup := by
        simpa using hnd
      cases hu : uc_shape_upd rcid old nw k0 with
      | none =>
          have hstep : uc_step rcid old nw d upd ((id0, k0) :: rest) =
              uc_step rcid old nw d upd rest := by
            conv_lhs => unfold uc_step
            rw [hu]
          obtain ⟨d1, u1, hrun, hunt, hupdd, hkept⟩ := ih d rcid old nw upd hnd2
          refine ⟨d1, u1, hstep ▸ hrun, ?_, ?_, ?_⟩
          · intro sid hsid
            exact hunt sid (fun hc => hsid (by simp [hc]))
          · intro id k hm k2 hup
            rcases (by simpa using hm :
                (id = id0 ∧ k = k0) ∨ (id, k) ∈ rest) with ⟨h1, h2⟩ | hm2
            · rw [h2, hu] at hup
              exact absurd hup (by simp)
            · exact hupdd id k hm2 k2 hup
          · intro id k hm hup
            rcases (by simpa using hm :
                (id = id0 ∧ k = k0) ∨ (id, k) ∈ rest) with ⟨h1, h2⟩ | hm2
            · rw [h1]
              exact hunt id0 hnotin
            · exact hkept id k hm2 hup
      | some k2 =>
          have hstep : uc_step rcid old nw d upd ((id0, k0) :: rest) =
              uc_step rcid old nw
                { d with shapes := assocPut (assocDel d.shapes id0) id0 (write_shape_kind k2) }
                (upd ++ [id0]) rest := by
            conv_lhs => unfold uc_step
            rw [hu]
            rfl
          obtain ⟨d1, u1, hrun, hunt, hupdd, hkept⟩ :=
            ih { d with shapes := assocPut (assocDel d.shapes id0) id0 (write_shape_kind k2) }
              rcid old nw (upd ++ [id0]) hnd2
          have hupself : assocGet (assocPut (assocDel d.shapes id0) id0 (write_shape_kind k2))
              id0 = some (write_shape_kind k2) := assocGet_put_self _ _ _
          refine ⟨d1, u1, hstep ▸ hrun, ?_, ?_, ?_⟩
          · intro sid hsid
            have hs0 : id0 ≠ sid := fun hc => hsid (by simp [hc])
            have hs1 : sid ∉ rest.map Prod.fst := fun hc => hsid (by simp [hc])
            rw [hunt sid hs1]
            exact assocGet_update_ne d.shapes id0 sid (write_shape_kind k2) hs0
          · intro id k hm k2b hup
            rcases (by simpa using hm :
                (id = id0 ∧ k = k0) ∨ (id, k) ∈ rest) with ⟨h1, h2⟩ | hm2
            · rw [h2, hu] at hup
              injection hup with hup
              rw [h1, hunt id0 hnotin, hupself, hup]
            · exact hupdd id k hm2 k2b hup
          · intro id k hm hup
            rcases (by simpa using hm :
                (id = id0 ∧ k = k0) ∨ (id, k) ∈ rest) with ⟨h1, h2⟩ | hm2
            · rw [h2, hu] at hup
              exact absurd hup (by simp)
            · have hne0 : id0 ≠ id := fun hc =>
                hnotin (hc ▸ List.mem_map_of_mem Prod.fst hm2)
              rw [hkept id k hm2 hup]
              exact assocGet_update_ne d.shapes id0 id (write_shape_kind k2) hne0


/-- The correspondence property claim C7 states for one endpoint: the result
is the new snap point at the index of the old snap point with minimum
Manhattan distance to the endpoint (the scan takes the first strict minimum). -/
def MovedTo (pos : Position) (old nw : List Position) (res : Position) : Prop :=
  ∃ j q, old.get? j = some q ∧
    (∀ j2 q2, old.get? j2 = some q2 → manhattan pos q ≤ manhattan pos q2) ∧
    (∀ j2 q2, j2 < j → old.get? j2 = some q2 → manhattan pos q < manhattan pos q2) ∧
    nw.get? j = some res

theorem endpoint_upd_not_connected (rcid : Nat) (conn : Option Nat) (pos : Position)
    (old nw : List Position) (hc : conn ≠ some rcid) :
    endpoint_upd rcid conn pos old nw = (pos, false) := by
  unfold endpoint_upd
  rw [if_neg hc]

theorem endpoint_upd_moved (rcid : Nat) (pos : Position) (old nw : List Position)
    (hne : old ≠ []) (hlen : old.length = nw.length)
    (hdist : ∀ p ∈ old, manhattan pos p < I32_MAX) :
    ∃ ns, endpoint_upd rcid (some rcid) pos old nw = (ns, true) ∧ MovedTo pos old nw ns := by
  obtain ⟨ns, j, q, hr, hget, hmin, hstrict, hnw⟩ :=
    endpoint_upd_connected rcid pos old nw hne hlen hdist
  exact ⟨ns, hr, j, q, hget, hmin, hstrict, hnw⟩


theorem uc_shape_upd_line_conn (rcid : Nat) (old nw : List Position)
    (s e : Position) (sty : LineStyle) (sc ec : Option Nat)
    (lab : Option (List Char)) (col : ShapeColor)
    (hconn : sc = some rcid ∨ ec = some rcid)
    (hne : old ≠ []) (hlen : old.length = nw.length)
    (hds : ∀ p ∈ old, manhattan s p < I32_MAX)
    (hde : ∀ p ∈ old, manhattan e p < I32_MAX) :
    ∃ ns ne2, uc_shape_upd rcid old nw (.Line s e sty sc ec lab col) =
        some (.Line ns ne2 sty sc ec lab col) ∧
      (sc = some rcid → MovedTo s old nw ns) ∧ (sc ≠ some rcid → ns = s) ∧
      (ec = some rcid → MovedTo e old nw ne2) ∧ (ec ≠ some rcid → ne2 = e) := by
  by_cases hsc : sc = some rcid
  · obtain ⟨ns, hr1, hm1⟩ := endpoint_upd_moved rcid s old nw hne hlen hds
    by_cases hec : ec = some rcid
    · obtain ⟨ne2, hr2, hm2⟩ := endpoint_upd_moved rcid e old nw hne hlen hde
      refine ⟨ns, ne2, ?_, fun _ => hm1, fun hc => absurd hsc hc,
        fun _ => hm2, fun hc => absurd hec hc⟩
      rw [hsc, hec]
      simp [uc_shape_upd, hr1, hr2]
    · have hr2 := endpoint_upd_not_connected rcid ec e old nw hec
      refine ⟨ns, e, ?_, fun _ => hm1, fun hc => absurd hsc hc,
        fun hc => absurd hc hec, fun _ => rfl⟩
      rw [hsc]
      simp [uc_shape_upd, hr1, hr2]
  · have hec : ec = some rcid := hconn.resolve_left hsc
    have hr1 := endpoint_upd_not_connected rcid sc s old nw hsc
    obtain ⟨ne2, hr2, hm2⟩ := endpoint_upd_moved rcid e old nw hne hlen hde
    refine ⟨s, ne2, ?_, fun hc => absurd hc hsc, fun _ => rfl,
      fun _ => hm2, fun hc => absurd hec hc⟩
    rw [hec]
    simp [uc_shape_upd, hr1, hr2]

theorem uc_shape_upd_arrow_conn (rcid : Nat) (old nw : List Position)
    (s e : Position) (sty : LineStyle) (sc ec : Option Nat)
    (lab : Option (List Char)) (col : ShapeColor)
    (hconn : sc = some rcid ∨ ec = some rcid)
    (hne : old ≠ []) (hlen : old.length = nw.length)
    (hds : ∀ p ∈ old, manhattan s p < I32_MAX)
    (hde : ∀ p ∈ old, manhattan e p < I32_MAX) :
    ∃ ns ne2, uc_shape_upd rcid old nw (.Arrow s e sty sc ec lab col) =
        some (.Arrow ns ne2 sty sc ec lab col) ∧
      (sc = some rcid → MovedTo s old nw ns) ∧ (sc ≠ some rcid → ns = s) ∧
      (ec = some rcid → MovedTo e old nw ne2) ∧ (ec ≠ some rcid → ne2 = e) := by
  by_cases hsc : sc = some rcid
  · obtain ⟨ns, hr1, hm1⟩ := endpoint_upd_moved rcid s old nw hne hlen hds
    by_cases hec : ec = some rcid
    · obtain ⟨ne2, hr2, hm2⟩ := endpoint_upd_moved rcid e old nw hne hlen hde
      refine ⟨ns, ne2, ?_, fun _ => hm1, fun hc => absurd hsc hc,
        fun _ => hm2, fun hc => absurd hec hc⟩
      rw [hsc, hec]
      simp [uc_shape_upd, hr1, hr2]
    · have hr2 := endpoint_upd_not_connected rcid ec e old nw hec
      refine ⟨ns, e, ?_, fun _ => hm1, fun hc => absurd hsc hc,
        fun hc => absurd hc hec, fun _ => rfl⟩
      rw [hsc]
      simp [uc_shape_upd, hr1, hr2]
  · have hec : ec = some rcid := hconn.resolve_left hsc
    have hr1 := endpoint_upd_not_connected rcid sc s old nw hsc
    obtain ⟨ne2, hr2, hm2⟩ := endpoint_upd_moved rcid e old nw hne hlen hde
    refine ⟨s, ne2, ?_, fun hc => absurd hc hsc, fun _ => rfl,
      fun _ => hm2, fun hc => absurd hec hc⟩
    rw [hec]
    simp [uc_shape_upd, hr1, hr2]


/-- C7: update_connections_for_resize returns without modifying any shape when
the old and new snap-point counts differ; with equal counts, every Line or
Arrow endpoint connected to the resized shape is moved to the new snap point
at the index of the old snap point with minimum Manhattan distance to the
endpoint (first strict minimum), the other endpoint and all other fields
being preserved. -/
theorem c7_update_connections_for_resize :
    (∀ (d : Document) (rid : Nat) (ok nk : ShapeKind),
      ok.snap_points.length ≠ nk.snap_points.length →
      update_connections_for_resize d rid ok nk = .ok (d, [])) ∧
    (∀ (d : Document) (rid : Nat) (ok nk : ShapeKind) (all : List (Nat × ShapeKind)),
      ok.snap_points.length = nk.snap_points.length →
      ok.snap_points ≠ [] →
      read_all_shapes d.shapes = .ok all → NodupKeys d.shapes →
      ∃ d1 u1, update_connections_for_resize d rid ok nk = .ok (d1, u1) ∧
        (∀ id s e sty sc ec lab col,
          (id, ShapeKind.Line s e sty sc ec lab col) ∈ all →
          (sc = some (rid % 2 ^ 64) ∨ ec = some (rid % 2 ^ 64)) →
          (∀ p ∈ ok.snap_points, manhattan s p < I32_MAX) →
          (∀ p ∈ ok.snap_points, manhattan e p < I32_MAX) →
          ∃ ns ne2,
            assocGet d1.shapes id =
              some (write_shape_kind (.Line ns ne2 sty sc ec lab col)) ∧
            (sc = some (rid % 2 ^ 64) → MovedTo s ok.snap_points nk.snap_points ns) ∧
            (sc ≠ some (rid % 2 ^ 64) → ns = s) ∧
            (ec = some (rid % 2 ^ 64) → MovedTo e ok.snap_points nk.snap_points ne2) ∧
            (ec ≠ some (rid % 2 ^ 64) → ne2 = e)) ∧
        (∀ id s e sty sc ec lab col,
          (id, ShapeKind.Arrow s e sty sc ec lab col) ∈ all →
          (sc = some (rid % 2 ^ 64) ∨ ec = some (rid % 2 ^ 64)) →
          (∀ p ∈ ok.snap_points, manhattan s p < I32_MAX) →
          (∀ p ∈ ok.snap_points, manhattan e p < I32_MAX) →
          ∃ ns ne2,
            assocGet d1.shapes id =
              some (write_shape_kind (.Arrow ns ne2 sty sc ec lab col)) ∧
            (sc = some (rid % 2 ^ 64) → MovedTo s ok.snap_points nk.snap_points ns) ∧
            (sc ≠ some (rid % 2 ^ 64) → ns = s) ∧
            (ec = some (rid % 2 ^ 64) → MovedTo e ok.snap_points nk.snap_points ne2) ∧
            (ec ≠ some (rid % 2 ^ 64) → ne2 = e))) := by
  constructor
  · intro d rid ok nk hneq
    unfold update_connections_for_resize
    rw [if_pos hneq]
  · intro d rid ok nk all hlen hne hread hnds
    have hallnd : (all.map Prod.fst).Nodup :=
      List.Nodup.sublist (read_all_shapes_keys_sublist d.shapes all hread) hnds
    obtain ⟨d1, u1, hrun, hunt, hupdd, hkept⟩ :=
      uc_step_spec all d (rid % 2 ^ 64) ok.snap_points nk.snap_points [] hallnd
    have hrun2 : update_connections_for_resize d rid ok nk = .ok (d1, u1) := by
      have h1 : update_connections_for_resize d rid ok nk = (do
          let all2 ← read_all_shapes d.shapes
          uc_step (rid % 2 ^ 64) ok.snap_points nk.snap_points d [] all2) := by
        unfold update_connections_for_resize
        rw [if_neg (fun hc => hc hlen)]
      rw [h1, hread]
      show uc_step (rid % 2 ^ 64) ok.snap_points nk.snap_points d [] all = .ok (d1, u1)
      exact hrun
    refine ⟨d1, u1, hrun2, ?_, ?_⟩
    · intro id s e sty sc ec lab col hm hconn hds hde
      obtain ⟨ns, ne2, hupd, hprops⟩ :=
        uc_shape_upd_line_conn (rid % 2 ^ 64) ok.snap_points nk.snap_points
          s e sty sc ec lab col hconn hne hlen hds hde
      exact ⟨ns, ne2, hupdd id _ hm _ hupd, hprops⟩
    · intro id s e sty sc ec lab col hm hconn hds hde
      obtain ⟨ns, ne2, hupd, hprops⟩ :=
        uc_shape_upd_arrow_conn (rid % 2 ^ 64) ok.snap_points nk.snap_points
          s e sty sc ec lab col hconn hne hlen hds hde
      exact ⟨ns, ne2, hupdd id _ hm _ hupd, hprops⟩


def okC7 : ShapeKind := .Rectangle ⟨0, 0⟩ ⟨2, 2⟩ none .White

def nkC7 : ShapeKind := .Rectangle ⟨0, 0⟩ ⟨4, 4⟩ none .White

def lineC7 : ShapeKind := .Line ⟨2, 0⟩ ⟨9, 9⟩ .Straight (some 7) none none .Red

def docC7 : Document := ⟨[(5, write_shape_kind lineC7)], [5], [], [], [], []⟩

theorem c7_update_connections_for_resize_witness :
    (okC7.snap_points.length ≠ lineC7.snap_points.length ∧
      update_connections_for_resize docC7 7 okC7 lineC7 = .ok (docC7, [])) ∧
    (okC7.snap_points.length = nkC7.snap_points.length ∧
      okC7.snap_points ≠ [] ∧
      read_all_shapes docC7.shapes = .ok [(5, lineC7)] ∧
      NodupKeys docC7.shapes ∧
      ∃ d1 u1, update_connections_for_resize docC7 7 okC7 nkC7 = .ok (d1, u1)) := by
  obtain ⟨d1, u1, hrun, -, -⟩ :=
    c7_update_connections_for_resize.2 docC7 7 okC7 nkC7 [(5, lineC7)]
      (by decide) (by decide) (by rfl) (by unfold NodupKeys; decide)
  exact ⟨⟨by decide,
      c7_update_connections_for_resize.1 docC7 7 okC7 lineC7 (by decide)⟩,
    by decide, by decide, by rfl, by unfold NodupKeys; decide, d1, u1, hrun⟩


/-- src/shapes.rs ShapeKind::translated: every coordinate moves by (dx, dy);
Line and Arrow set start_connection and end_connection to None. -/
def ShapeKind.translated (dx dy : Int) : ShapeKind → ShapeKind
  | .Line s e sty _ _ lab col =>
      .Line ⟨s.x + dx, s.y + dy⟩ ⟨e.x + dx, e.y + dy⟩ sty none none lab col
  | .Arrow s e sty _ _ lab col =>
      .Arrow ⟨s.x + dx, s.y + dy⟩ ⟨e.x + dx, e.y + dy⟩ sty none none lab col
  | .Rectangle s e lab col =>
      .Rectangle ⟨s.x + dx, s.y + dy⟩ ⟨e.x + dx, e.y + dy⟩ lab col
  | .DoubleBox s e lab col =>
      .DoubleBox ⟨s.x + dx, s.y + dy⟩ ⟨e.x + dx, e.y + dy⟩ lab col
  | .Diamond c hw hh lab col => .Diamond ⟨c.x + dx, c.y + dy⟩ hw hh lab col
  | .Ellipse c rx ry lab col => .Ellipse ⟨c.x + dx, c.y + dy⟩ rx ry lab col
  | .Freehand pts ch lab col =>
      .Freehand (pts.map fun p => ⟨p.x + dx, p.y + dy⟩) ch lab col
  | .Text p content col => .Text ⟨p.x + dx, p.y + dy⟩ content col
  | .Triangle p1 p2 p3 lab col =>
      .Triangle ⟨p1.x + dx, p1.y + dy⟩ ⟨p2.x + dx, p2.y + dy⟩ ⟨p3.x + dx, p3.y + dy⟩ lab col
  | .Parallelogram s e lab col =>
      .Parallelogram ⟨s.x + dx, s.y + dy⟩ ⟨e.x + dx, e.y + dy⟩ lab col
  | .Hexagon c rx ry lab col => .Hexagon ⟨c.x + dx, c.y + dy⟩ rx ry lab col
  | .Trapezoid s e lab col =>
      .Trapezoid ⟨s.x + dx, s.y + dy⟩ ⟨e.x + dx, e.y + dy⟩ lab col
  | .RoundedRect s e lab col =>
      .RoundedRect ⟨s.x + dx, s.y + dy⟩ ⟨e.x + dx, e.y + dy⟩ lab col
  | .Cylinder s e lab col =>
      .Cylinder ⟨s.x + dx, s.y + dy⟩ ⟨e.x + dx, e.y + dy⟩ lab col
  | .Cloud s e lab col =>
      .Cloud ⟨s.x + dx, s.y + dy⟩ ⟨e.x + dx, e.y + dy⟩ lab col
  | .Star c ro ri lab col => .Star ⟨c.x + dx, c.y + dy⟩ ro ri lab col

/-- src/document.rs Document::translate_shape: read the shape, store its
translation back through update_shape; a missing shape is a silent no-op. -/
def translate_shape (d : Document) (id : Nat) (dx dy : Int) : Res Document := do
  let k? ← read_shape d id
  match k? with
  | some k => update_shape d id (k.translated dx dy)
  | none => .ok d

theorem update_shape_spec (d : Document) (id : Nat) (k : ShapeKind) :
    ∃ d2, update_shape d id k = .ok d2 ∧
      assocGet d2.shapes id = some (write_shape_kind k) :=
  ⟨_, rfl, assocGet_put_self _ _ _⟩

/-- C9: translating a stored Line or Arrow that carries a connection stores
back the shape with both endpoints shifted by (dx, dy) and both connection
references silently reset to None. -/
theorem c9_translate_discards_connections :
    (∀ (d : Document) (id : Nat) (dx dy : Int) (s e : Position) (sty : LineStyle)
      (sc ec : Option Nat) (lab : Option (List Char)) (col : ShapeColor),
      read_shape d id = .ok (some (.Line s e sty sc ec lab col)) →
      (sc ≠ none ∨ ec ≠ none) →
      ∃ d2, translate_shape d id dx dy = .ok d2 ∧
        assocGet d2.shapes id = some (write_shape_kind
          (.Line ⟨s.x + dx, s.y + dy⟩ ⟨e.x + dx, e.y + dy⟩ sty none none lab col))) ∧
    (∀ (d : Document) (id : Nat) (dx dy : Int) (s e : Position) (sty : LineStyle)
      (sc ec : Option Nat) (lab : Option (List Char)) (col : ShapeColor),
      read_shape d id = .ok (some (.Arrow s e sty sc ec lab col)) →
      (sc ≠ none ∨ ec ≠ none) →
      ∃ d2, translate_shape d id dx dy = .ok d2 ∧
        assocGet d2.shapes id = some (write_shape_kind
          (.Arrow ⟨s.x + dx, s.y + dy⟩ ⟨e.x + dx, e.y + dy⟩ sty none none lab col))) := by
  constructor
  · intro d id dx dy s e sty sc ec lab col hrd _
    obtain ⟨d2, hup, hget⟩ :=
      update_shape_spec d id ((ShapeKind.Line s e sty sc ec lab col).translated dx dy)
    have hres : translate_shape d id dx dy = .ok d2 := by
      unfold translate_shape
      rw [hrd]
      show update_shape d id ((ShapeKind.Line s e sty sc ec lab col).translated dx dy) = .ok d2
      exact hup
    exact ⟨d2, hres, hget⟩
  · intro d id dx dy s e sty sc ec lab col hrd _
    obtain ⟨d2, hup, hget⟩ :=
      update_shape_spec d id ((ShapeKind.Arrow s e sty sc ec lab col).translated dx dy)
    have hres : translate_shape d id dx dy = .ok d2 := by
      unfold translate_shape
      rw [hrd]
      show update_shape d id ((ShapeKind.Arrow s e sty sc ec lab col).translated dx dy) = .ok d2
      exact hup
    exact ⟨d2, hres, hget⟩

def lineC9 : ShapeKind := .Line ⟨1, 1⟩ ⟨2, 2⟩ .Straight (some 3) (some 4) none .Red

def arrowC9 : ShapeKind := .Arrow ⟨1, 1⟩ ⟨2, 2⟩ .Straight none (some 4) none .Blue

def docC9 : Document :=
  ⟨[(5, write_shape_kind lineC9), (6, write_shape_kind arrowC9)], [5, 6], [], [], [], []⟩

theorem c9_translate_discards_connections_witness :
    (read_shape docC9 5 = .ok (some lineC9) ∧
      ((some 3 : Option Nat) ≠ none ∨ (some 4 : Option Nat) ≠ none) ∧
      ∃ d2, translate_shape docC9 5 10 20 = .ok d2 ∧
        assocGet d2.shapes 5 = some (write_shape_kind
          (.Line ⟨11, 21⟩ ⟨12, 22⟩ .Straight none none none .Red))) ∧
    (read_shape docC9 6 = .ok (some arrowC9) ∧
      ((none : Option Nat) ≠ none ∨ (some 4 : Option Nat) ≠ none) ∧
      ∃ d2, translate_shape docC9 6 10 20 = .ok d2 ∧
        assocGet d2.shapes 6 = some (write_shape_kind
          (.Arrow ⟨11, 21⟩ ⟨12, 22⟩ .Straight none none none .Blue))) := by
  refine ⟨⟨by rfl, by decide, ?_⟩, ⟨by rfl, by decide, ?_⟩⟩
  · exact c9_translate_discards_connections.1 docC9 5 10 20 ⟨1, 1⟩ ⟨2, 2⟩ .Straight
      (some 3) (some 4) none .Red (by rfl) (by decide)
  · exact c9_translate_discards_connections.2 docC9 6 10 20 ⟨1, 1⟩ ⟨2, 2⟩ .Straight
      none (some 4) none .Blue (by rfl) (by decide)


/-- src/presence.rs ToolKind. -/
inductive ToolKind
| Select
| Freehand
| Text
| Line
| Arrow
| Rectangle
| DoubleBox
| Diamond
| Ellipse
| Triangle
| Parallelogram
| Hexagon
| Trapezoid
| RoundedRect
| Cylinder
| Cloud
| Star
deriving DecidableEq, Repr

/-- src/presence.rs CursorActivity. -/
inductive CursorActivity
| Idle
| Drawing (tool : ToolKind) (start current : Position)
| Selected (shape_id : Nat)
| Dragging (shape_id : Nat)
| Resizing (shape_id : Nat)
| Typing (position : Position)
deriving DecidableEq, Repr

/-- src/presence.rs PeerPresence.  PeerId (32 bytes) is modelled as Nat,
color_index (u8) and timestamp_ms (u64) as Nat. -/
structure PeerPresence where
  peer_id : Nat
  cursor_pos : Position
  activity : CursorActivity
  color_index : Nat
  timestamp_ms : Nat
deriving DecidableEq, Repr

/-- src/presence.rs STALE_THRESHOLD = Duration::from_secs(5), in the
millisecond clock used throughout the model. -/
def STALE_THRESHOLD : Nat := 5000

/-- src/presence.rs PresenceManager.  The HashMap over PeerId is an
association list; Instant values are Nat milliseconds, and Instant::now()
becomes an explicit now argument of the mutating calls. -/
structure PresenceManager where
  local_peer_id : Nat
  peers : List (Nat × (PeerPresence × Nat))
deriving DecidableEq, Repr

/-- src/presence.rs PresenceManager::new. -/
def PresenceManager.new (local_peer_id : Nat) : PresenceManager := ⟨local_peer_id, []⟩

/-- src/presence.rs PresenceManager::update_peer: the local peer's presence
is never stored; any other peer is inserted or overwritten with the current
instant. -/
def update_peer (pm : PresenceManager) (presence : PeerPresence) (now : Nat) :
    PresenceManager :=
  if presence.peer_id ≠ pm.local_peer_id then
    { pm with peers := assocPut pm.peers presence.peer_id (presence, now) }
  else pm

/-- src/presence.rs PresenceManager::remove_peer. -/
def remove_peer (pm : PresenceManager) (pid : Nat) : PresenceManager :=
  { pm with peers := assocDel pm.peers pid }

/-- src/presence.rs PresenceManager::prune_stale: retain entries whose
duration_since the last update is below STALE_THRESHOLD (Instant
duration_since saturates at zero, as does Nat subtraction). -/
def prune_stale (pm : PresenceManager) (now : Nat) : PresenceManager :=
  { pm with peers := pm.peers.filter fun e => now - e.2.2 < STALE_THRESHOLD }

/-- src/presence.rs PresenceManager::active_peers: the stored presences. -/
def active_peers (pm : PresenceManager) : List PeerPresence :=
  pm.peers.map fun e => e.2.1

/-- Well-formedness of the presence map: distinct keys (a HashMap invariant)
and each entry keyed by its presence's peer id (update_peer inserts at key
presence.peer_id). -/
def PresenceWF (pm : PresenceManager) : Prop :=
  (pm.peers.map Prod.fst).Nodup ∧ ∀ e ∈ pm.peers, (e.2.1).peer_id = e.1

theorem assocDel_sublist {α : Type} (l : List (Nat × α)) (k : Nat) :
    List.Sublist (assocDel l k) l := by
  induction l with
  | nil => simp [assocDel]
  | cons q rest ih =>
      obtain ⟨k2, v2⟩ := q
      by_cases hk : k2 = k
      · simp only [assocDel, if_pos hk]
        exact List.sublist_cons_self _ _
      · simp only [assocDel, if_neg hk]
        exact List.Sublist.cons₂ _ ih

theorem mem_unique_of_nodup_keys {α : Type} : ∀ (l : List (Nat × α)),
    (l.map Prod.fst).Nodup → ∀ (k : Nat) (v1 v2 : α),
    (k, v1) ∈ l → (k, v2) ∈ l → v1 = v2 := by
  intro l
  induction l with
  | nil =>
      intro _ k v1 v2 h1
      exact absurd h1 (by simp)
  | cons q rest ih =>
      intro hnd k v1 v2 h1 h2
      obtain ⟨k0, v0⟩ := q
      obtain ⟨hnotin, hnd2⟩ : k0 ∉ rest.map Prod.fst ∧ (rest.map Prod.fst).Nodup := by
        simpa using hnd
      rcases List.mem_cons.mp h1 with hc1 | hc1 <;>
        rcases List.mem_cons.mp h2 with hc2 | hc2
      · injection hc1 with e1 e2
        injection hc2 with e3 e4
        rw [e2, e4]
      · injection hc1 with e1 e2
        exact absurd (List.mem_map_of_mem Prod.fst hc2)
          (by rw [← e1] at hnotin; exact hnotin)
      · injection hc2 with e1 e2
        exact absurd (List.mem_map_of_mem Prod.fst hc1)
          (by rw [← e1] at hnotin; exact hnotin)
      · exact ih hnd2 k v1 v2 hc1 hc2


/-- C8: after prune_stale, a peer whose entry is older than STALE_THRESHOLD
(strictly more than 5 seconds before the call) yields no presence in
active_peers, and a peer updated strictly less than 5 seconds before the
call is still present. -/
theorem c8_prune_stale (pm : PresenceManager) (now : Nat) (hwf : PresenceWF pm) :
    (∀ pid p last, (pid, (p, last)) ∈ pm.peers → STALE_THRESHOLD < now - last →
      ∀ q ∈ active_peers (prune_stale pm now), q.peer_id ≠ pid) ∧
    (∀ pid p last, (pid, (p, last)) ∈ pm.peers → now - last < STALE_THRESHOLD →
      p ∈ active_peers (prune_stale pm now)) := by
  constructor
  · intro pid p last hm hstale q hq hqpid
    obtain ⟨e, hef, hfst⟩ := List.mem_map.mp hq
    obtain ⟨hbase, hfresh⟩ := List.mem_filter.mp hef
    have hfresh2 : now - e.2.2 < STALE_THRESHOLD := by simpa using hfresh
    have hkey : (e.2.1).peer_id = e.1 := hwf.2 e hbase
    have he1 : e.1 = pid := by rw [← hkey, hfst, hqpid]
    have hee : (pid, e.2) ∈ pm.peers := by
      have : e = (e.1, e.2) := rfl
      rw [← he1]
      simpa using hbase
    have heq : (p, last) = e.2 := mem_unique_of_nodup_keys pm.peers hwf.1 pid _ _ hm hee
    rw [← heq] at hfresh2
    simp at hfresh2
    omega
  · intro pid p last hm hfresh
    have hin : (pid, (p, last)) ∈ pm.peers.filter fun e => now - e.2.2 < STALE_THRESHOLD := by
      refine List.mem_filter.mpr ⟨hm, ?_⟩
      simpa using hfresh
    exact List.mem_map_of_mem (fun e => e.2.1) hin

def presC8a : PeerPresence := ⟨1, ⟨0, 0⟩, .Idle, 0, 0⟩

def presC8b : PeerPresence := ⟨2, ⟨0, 0⟩, .Idle, 0, 0⟩

def pmC8 : PresenceManager := ⟨0, [(1, (presC8a, 1000)), (2, (presC8b, 9000))]⟩

theorem c8_prune_stale_witness :
    PresenceWF pmC8 ∧
    ((1, (presC8a, 1000)) ∈ pmC8.peers ∧ STALE_THRESHOLD < 10000 - 1000 ∧
      ∀ q ∈ active_peers (prune_stale pmC8 10000), q.peer_id ≠ 1) ∧
    ((2, (presC8b, 9000)) ∈ pmC8.peers ∧ 10000 - 9000 < STALE_THRESHOLD ∧
      presC8b ∈ active_peers (prune_stale pmC8 10000)) := by
  have hwf : PresenceWF pmC8 := by
    unfold PresenceWF
    decide
  refine ⟨hwf, ⟨by decide, by decide, ?_⟩, ⟨by decide, by decide, ?_⟩⟩
  · exact (c8_prune_stale pmC8 10000 hwf).1 1 presC8a 1000 (by decide) (by decide)
  · exact (c8_prune_stale pmC8 10000 hwf).2 2 presC8b 9000 (by decide) (by decide)


/-- A presence-manager call, for the C10 invariant: update_peer, remove_peer
or prune_stale, with explicit Instant::now() arguments. -/
inductive POp
| update (p : PeerPresence) (now : Nat)
| remove (pid : Nat)
| prune (now : Nat)
deriving DecidableEq, Repr

/-- Apply one presence call. -/
def apply_pop (pm : PresenceManager) : POp → PresenceManager
  | .update p now => update_peer pm p now
  | .remove pid => remove_peer pm pid
  | .prune now => prune_stale pm now

/-- Apply a sequence of presence calls. -/
def apply_pops (pm : PresenceManager) (ops : List POp) : PresenceManager :=
  ops.foldl apply_pop pm

/-- The C10 invariant: every entry is keyed by its presence's peer id and the
local peer id is not a key. -/
def PLocalInv (pm : PresenceManager) : Prop :=
  (∀ e ∈ pm.peers, (e.2.1).peer_id = e.1) ∧
    pm.local_peer_id ∉ pm.peers.map Prod.fst

theorem plocalinv_step (pm : PresenceManager) (op : POp) (h : PLocalInv pm) :
    PLocalInv (apply_pop pm op) ∧ (apply_pop pm op).local_peer_id = pm.local_peer_id := by
  cases op with
  | update p now =>
      show PLocalInv (update_peer pm p now) ∧ (update_peer pm p now).local_peer_id = _
      unfold update_peer
      by_cases hc : p.peer_id ≠ pm.local_peer_id
      · rw [if_pos hc]
        refine ⟨⟨?_, ?_⟩, rfl⟩
        · intro e he
          rcases mem_assocPut pm.peers p.peer_id (p, now) e he with he2 | he2
          · exact h.1 e he2
          · rw [he2]
        · intro hmem
          rcases assocPut_keys pm.peers p.peer_id (p, now) with hk | hk
          · rw [hk] at hmem
            exact h.2 hmem
          · rw [hk] at hmem
            rcases List.mem_append.mp hmem with hc2 | hc2
            · exact h.2 hc2
            · have hc3 : pm.local_peer_id = p.peer_id := by simpa using hc2
              exact hc hc3.symm
      · rw [if_neg hc]
        exact ⟨h, rfl⟩
  | remove pid =>
      refine ⟨⟨?_, ?_⟩, rfl⟩
      · intro e he
        exact h.1 e ((assocDel_sublist pm.peers pid).subset he)
      · intro hmem
        exact h.2 ((assocDel_keys_sublist pm.peers pid).subset hmem)
  | prune now =>
      refine ⟨⟨?_, ?_⟩, rfl⟩
      · intro e he
        exact h.1 e (List.mem_filter.mp he).1
      · intro hmem
        obtain ⟨e, hef, hfst⟩ := List.mem_map.mp hmem
        exact h.2 (hfst ▸ List.mem_map_of_mem Prod.fst (List.mem_filter.mp hef).1)


theorem plocalinv_pops : ∀ (ops : List POp) (pm : PresenceManager), PLocalInv pm →
    PLocalInv (apply_pops pm ops) := by
  intro ops
  induction ops with
  | nil => exact fun pm h => h
  | cons op rest ih =>
      intro pm h
      exact ih (apply_pop pm op) (plocalinv_step pm op h).1

/-- C10: starting from PresenceManager::new, no sequence of update_peer,
remove_peer and prune_stale calls ever makes active_peers yield a presence
with the local peer id, and update_peer called with the local peer's
presence leaves the manager unchanged. -/
theorem c10_local_never_in_presence :
    (∀ (lid : Nat) (ops : List POp) (q : PeerPresence),
      q ∈ active_peers (apply_pops (PresenceManager.new lid) ops) →
      q.peer_id ≠ lid) ∧
    (∀ (pm : PresenceManager) (p : PeerPresence) (now : Nat),
      p.peer_id = pm.local_peer_id → update_peer pm p now = pm) := by
  constructor
  · intro lid ops q hq hqeq
    have hinv : PLocalInv (apply_pops (PresenceManager.new lid) ops) :=
      plocalinv_pops ops (PresenceManager.new lid)
        ⟨fun e he => absurd he (by simp [PresenceManager.new]),
          by simp [PresenceManager.new]⟩
    have hloc : ∀ (ops2 : List POp) (pm : PresenceManager),
        (apply_pops pm ops2).local_peer_id = pm.local_peer_id := by
      intro ops2
      induction ops2 with
      | nil => exact fun _ => rfl
      | cons op rest ih =>
          intro pm
          calc (apply_pops (apply_pop pm op) rest).local_peer_id
              = (apply_pop pm op).local_peer_id := ih (apply_pop pm op)
            _ = pm.local_peer_id := by
                cases op with
                | update p now =>
                    show (update_peer pm p now).local_peer_id = _
                    unfold update_peer
                    by_cases hc : p.peer_id ≠ pm.local_peer_id
                    · rw [if_pos hc]
                    · rw [if_neg hc]
                | remove pid => rfl
                | prune now => rfl
    obtain ⟨e, hef, hfst⟩ := List.mem_map.mp hq
    have hkey : (e.2.1).peer_id = e.1 := hinv.1 e hef
    have hmemk : e.1 ∈ (apply_pops (PresenceManager.new lid) ops).peers.map Prod.fst :=
      List.mem_map_of_mem Prod.fst hef
    have he1 : e.1 = lid := by rw [← hkey, hfst, hqeq]
    have hl : (apply_pops (PresenceManager.new lid) ops).local_peer_id = lid :=
      hloc ops (PresenceManager.new lid)
    refine hinv.2 ?_
    rw [hl]
    exact he1 ▸ hmemk
  · intro pm p now h
    unfold update_peer
    rw [if_neg (not_not_intro h)]

def presC10a : PeerPresence := ⟨0, ⟨0, 0⟩, .Idle, 0, 0⟩

def presC10b : PeerPresence := ⟨1, ⟨0, 0⟩, .Idle, 0, 0⟩

def opsC10 : List POp := [.update presC10a 5, .update presC10b 5, .prune 6]

theorem c10_local_never_in_presence_witness :
    (presC10b ∈ active_peers (apply_pops (PresenceManager.new 0) opsC10) ∧
      presC10b.peer_id ≠ 0) ∧
    (presC10a.peer_id = (PresenceManager.new 0).local_peer_id ∧
      update_peer (PresenceManager.new 0) presC10a 7 = PresenceManager.new 0) := by
  refine ⟨⟨by decide, ?_⟩, ⟨rfl, ?_⟩⟩
  · intro hc
    exact c10_local_never_in_presence.1 0 opsC10 presC10b (by decide) hc
  · exact c10_local_never_in_presence.2 (PresenceManager.new 0) presC10a 7 rfl


end Irohscii



